import Mathlib

/-!
Verification of the GunfireSaveSystem persistence subsystem.

This file gives a shallow embedding, in Lean, of the parts of the
GunfireSaveSystem repository that the verified properties are about:

* the top-level save-blob header format and its validation
  (`UPersistenceManager::FSaveHeader::Read` / `Finalize` / `WriteSave` /
  `VerifySaveIntegrity` in `PersistenceManager.cpp`),
* the commit orchestration (`CommitSave`, `CommitSaveToSlot`,
  `SetDisableCommit`, `ClearAllCommitLocks`, `DeleteContainer`),
* the per-container pack/unpack/write/load state machine
  (`PersistenceContainer.cpp`),
* the level-offset transform adjustment (`RemoveLevelOffset` /
  `AddLevelOffset`),
* the Windows file backend with its backup rotation and restore logic
  (`WindowsSaveGameSystem.cpp`).

Machine integers (uint32/int32) are modeled as `Nat`/`Int` with explicit
reductions mod 2^32 where the code truncates; byte buffers are `List Nat`
with every element `< 256`; fallible filesystem operations return a
`Bool` alongside the new state, mirroring the engine API.
-/

set_option maxRecDepth 400000

namespace GunfireSpec

/-! ## Little-endian 32-bit fields

The engine serializes `uint32`/`int32` fields little-endian, four bytes
each (`FArchive& operator<<`). -/

/-- Little-endian encoding of the low 32 bits of `n` as four bytes. -/
def le32 (n : Nat) : List Nat :=
  [n % 256, n / 256 % 256, n / 65536 % 256, n / 16777216 % 256]

/-- Decode the four bytes at offset `off` of `l` as a little-endian
unsigned 32-bit value (missing bytes read as 0). -/
def u32At (l : List Nat) (off : Nat) : Nat :=
  l.getD off 0 + 256 * l.getD (off + 1) 0 + 65536 * l.getD (off + 2) 0 +
    16777216 * l.getD (off + 3) 0

/-- Reinterpret an unsigned 32-bit value as a signed `int32`. -/
def asInt32 (n : Nat) : Int :=
  if n < 2 ^ 31 then (n : Int) else (n : Int) - 2 ^ 32

theorem le32_length (n : Nat) : (le32 n).length = 4 := rfl

theorem le32_lt (n : Nat) : ∀ x ∈ le32 n, x < 256 := by
  simp only [le32, List.mem_cons, List.not_mem_nil, or_false]
  rintro x (rfl | rfl | rfl | rfl) <;> omega

theorem u32At_cons_succ (a : Nat) (l : List Nat) (k : Nat) :
    u32At (a :: l) (k + 1) = u32At l k := by
  simp [u32At, List.getD_cons_succ]

theorem u32At_le32_append (n : Nat) (l : List Nat) :
    u32At (le32 n ++ l) 0 = n % 2 ^ 32 := by
  simp only [le32, List.cons_append, List.nil_append, u32At,
    List.getD_cons_zero, List.getD_cons_succ]
  omega

theorem u32At_append_skip (pre l : List Nat) (k : Nat) :
    u32At (pre ++ l) (pre.length + k) = u32At l k := by
  induction pre with
  | nil => simp
  | cons a pre ih =>
    have : (a :: pre).length + k = (pre.length + k) + 1 := by
      simp [List.length_cons]; omega
    rw [this, List.cons_append, u32At_cons_succ, ih]

theorem u32At_lt (l : List Nat) (off : Nat) (h : ∀ x ∈ l, x < 256) :
    u32At l off < 2 ^ 32 := by
  have hb : ∀ k, l.getD k 0 < 256 := by
    intro k
    rw [List.getD_eq_getElem?_getD]
    by_cases hk : k < l.length
    · rw [List.getElem?_eq_getElem hk]
      exact h _ (List.getElem_mem hk)
    · rw [List.getElem?_eq_none (by omega)]
      simp
  have h0 := hb off
  have h1 := hb (off + 1)
  have h2 := hb (off + 2)
  have h3 := hb (off + 3)
  simp only [u32At]
  omega

/-! ## Result enumerations (`PersistenceTypes.h`) -/

/-- `EPersistenceLoadResult` from `PersistenceTypes.h`. -/
inductive EPersistenceLoadResult where
  | Success
  | DoesNotExist
  | Corrupt
  | Restored
  | TooNew
  | Unknown
deriving DecidableEq, Repr

/-- `EPersistenceHasResult` from `PersistenceTypes.h`. -/
inductive EPersistenceHasResult where
  | Empty
  | Exists
  | Corrupt
  | Restored
  | Unknown
deriving DecidableEq, Repr

/-- `EPersistenceSaveResult` from `PersistenceTypes.h`. -/
inductive EPersistenceSaveResult where
  | Success
  | Disabled
  | Busy
  | Unknown
deriving DecidableEq, Repr

/-- `ISaveGameSystem::ESaveExistsResult` (engine enum used by
`FWindowsSaveGameSystem::DoesSaveGameExistWithResult`). -/
inductive ESaveExistsResult where
  | OK
  | DoesNotExist
  | Corrupt
  | UnspecifiedError
deriving DecidableEq, Repr

/-! ## CRC-32

Modelled from the spec: `FCrc::MemCrc32` is engine code, not part of this
repository; the spec describes it as "a CRC32 checksum computed over
everything from immediately after the checksum field onward".  We model
it as the standard reflected CRC-32 (polynomial 0xEDB88320, initial and
final complement), processed bitwise. -/

def crcPoly : Nat := 0xEDB88320

/-- One CRC bit step: if the low bit is set, shift right and xor the
polynomial in, else just shift right. -/
def crcBit (s : Nat) : Nat :=
  if s % 2 = 1 then (s / 2) ^^^ crcPoly else s / 2

/-- One CRC byte step: xor the byte into the register and run eight bit
steps. -/
def crcByte (s b : Nat) : Nat := crcBit^[8] (s ^^^ b)

/-- Run the CRC register over a byte list. -/
def crcFold (s : Nat) (l : List Nat) : Nat := l.foldl crcByte s

/-- CRC-32 of a byte list, with the conventional initial and final
complement (`MemCrc32` with its default zero seed). -/
def memCrc32 (l : List Nat) : Nat := crcFold 0xFFFFFFFF l ^^^ 0xFFFFFFFF

theorem crcFold_cons (s a : Nat) (l : List Nat) :
    crcFold s (a :: l) = crcFold (crcByte s a) l := rfl

theorem crcPoly_lt : crcPoly < 2 ^ 32 := by decide

theorem crcPoly_testBit31 : crcPoly.testBit 31 = true := by decide

theorem crcBit_lt {s : Nat} (h : s < 2 ^ 32) : crcBit s < 2 ^ 32 := by
  unfold crcBit
  split
  · exact Nat.xor_lt_two_pow (by omega) crcPoly_lt
  · omega

theorem crcBit_inj {s t : Nat} (hs : s < 2 ^ 32) (ht : t < 2 ^ 32)
    (h : crcBit s = crcBit t) : s = t := by
  have key : ∀ a b : Nat, a < 2 ^ 32 → b < 2 ^ 32 → a % 2 = 0 → b % 2 = 1 →
      a / 2 ≠ (b / 2) ^^^ crcPoly := by
    intro a b ha hb hae hbo heq
    have hlt : a / 2 < 2 ^ 31 := by omega
    have hbit : ((b / 2) ^^^ crcPoly).testBit 31 = true := by
      rw [Nat.testBit_xor, Nat.testBit_lt_two_pow (x := b / 2) (by omega),
        crcPoly_testBit31]
      rfl
    have := Nat.testBit_implies_ge hbit
    rw [← heq] at this
    omega
  unfold crcBit at h
  rcases Nat.mod_two_eq_zero_or_one s with hse | hso <;>
    rcases Nat.mod_two_eq_zero_or_one t with hte | hto
  · rw [if_neg (by omega), if_neg (by omega)] at h
    omega
  · rw [if_neg (by omega), if_pos hto] at h
    exact absurd h (key s t hs ht hse hto)
  · rw [if_pos hso, if_neg (by omega)] at h
    exact absurd h.symm (key t s ht hs hte hso)
  · rw [if_pos hso, if_pos hto] at h
    have := Nat.xor_left_inj.mp h
    omega

theorem crcBitIter_lt {s : Nat} (n : Nat) (h : s < 2 ^ 32) :
    crcBit^[n] s < 2 ^ 32 := by
  induction n generalizing s with
  | zero => simpa using h
  | succ n ih =>
    rw [Function.iterate_succ_apply]
    exact ih (crcBit_lt h)

theorem crcBitIter_inj {s t : Nat} (n : Nat) (hs : s < 2 ^ 32)
    (ht : t < 2 ^ 32) (h : crcBit^[n] s = crcBit^[n] t) : s = t := by
  induction n generalizing s t with
  | zero => simpa using h
  | succ n ih =>
    rw [Function.iterate_succ_apply, Function.iterate_succ_apply] at h
    exact crcBit_inj hs ht (ih (crcBit_lt hs) (crcBit_lt ht) h)

theorem crcByte_lt {s b : Nat} (hs : s < 2 ^ 32) (hb : b < 256) :
    crcByte s b < 2 ^ 32 := by
  exact crcBitIter_lt 8 (Nat.xor_lt_two_pow hs (by omega))

theorem crcByte_inj_state {s t b : Nat} (hs : s < 2 ^ 32) (ht : t < 2 ^ 32)
    (hb : b < 256) (h : crcByte s b = crcByte t b) : s = t := by
  have := crcBitIter_inj 8 (Nat.xor_lt_two_pow hs (by omega))
    (Nat.xor_lt_two_pow ht (by omega)) h
  exact Nat.xor_left_inj.mp this

theorem crcByte_inj_byte {s b c : Nat} (hs : s < 2 ^ 32) (hb : b < 256)
    (hc : c < 256) (h : crcByte s b = crcByte s c) : b = c := by
  have := crcBitIter_inj 8 (Nat.xor_lt_two_pow hs (by omega))
    (Nat.xor_lt_two_pow hs (by omega)) h
  exact Nat.xor_right_injective this

theorem crcFold_lt {s : Nat} {l : List Nat} (hs : s < 2 ^ 32)
    (hl : ∀ x ∈ l, x < 256) : crcFold s l < 2 ^ 32 := by
  induction l generalizing s with
  | nil => simpa [crcFold] using hs
  | cons a l ih =>
    rw [crcFold_cons]
    exact ih (crcByte_lt hs (hl a (List.mem_cons_self a l))) fun x hx =>
      hl x (List.mem_cons_of_mem a hx)

theorem crcFold_inj_state {s t : Nat} {l : List Nat} (hs : s < 2 ^ 32)
    (ht : t < 2 ^ 32) (hl : ∀ x ∈ l, x < 256) (hne : s ≠ t) :
    crcFold s l ≠ crcFold t l := by
  induction l generalizing s t with
  | nil => simpa [crcFold]
  | cons a l ih =>
    rw [crcFold_cons, crcFold_cons]
    have ha : a < 256 := hl a (List.mem_cons_self a l)
    exact ih (crcByte_lt hs ha) (crcByte_lt ht ha)
      (fun x hx => hl x (List.mem_cons_of_mem a hx))
      (fun h => hne (crcByte_inj_state hs ht ha h))

/-- Changing a single byte of the input changes the running CRC register. -/
theorem crcFold_set_ne {s : Nat} {l : List Nat} {k b : Nat}
    (hs : s < 2 ^ 32) (hl : ∀ x ∈ l, x < 256) (hk : k < l.length)
    (hb : b < 256) (hne : b ≠ l.getD k 0) :
    crcFold s (l.set k b) ≠ crcFold s l := by
  induction l generalizing s k with
  | nil => simp at hk
  | cons a l ih =>
    have ha : a < 256 := hl a (List.mem_cons_self a l)
    have hl2 : ∀ x ∈ l, x < 256 := fun x hx => hl x (List.mem_cons_of_mem a hx)
    cases k with
    | zero =>
      rw [List.set_cons_zero, crcFold_cons, crcFold_cons]
      refine crcFold_inj_state (crcByte_lt hs hb) (crcByte_lt hs ha) hl2 ?_
      intro h
      exact hne (by simpa using crcByte_inj_byte hs hb ha h)
    | succ k =>
      rw [List.set_cons_succ, crcFold_cons, crcFold_cons]
      exact ih (crcByte_lt hs ha) hl2 (by simpa using hk)
        (by simpa using hne)

theorem memCrc32_lt {l : List Nat} (hl : ∀ x ∈ l, x < 256) :
    memCrc32 l < 2 ^ 32 := by
  exact Nat.xor_lt_two_pow (crcFold_lt (by omega) hl) (by omega)

/-- Changing a single byte of the input changes the CRC-32. -/
theorem memCrc32_set_ne {l : List Nat} {k b : Nat}
    (hl : ∀ x ∈ l, x < 256) (hk : k < l.length) (hb : b < 256)
    (hne : b ≠ l.getD k 0) : memCrc32 (l.set k b) ≠ memCrc32 l := by
  unfold memCrc32
  intro h
  exact crcFold_set_ne (by omega) hl hk hb hne (Nat.xor_left_inj.mp h)

/-! ## Top-level save header (`PersistenceManager.cpp`)

`FSaveHeader::Write`/`Finalize` lay a save blob out as
`version(4) checksum(4) size(4) buildNumber(4) ueVersion cvOffset(4)
classPath document customVersions`; `Finalize` stamps the custom-version
offset, the total size and a CRC over everything from byte 8 on.
The archive-codec document bytes, the class-path bytes, the
engine-version stamp and the custom-version table are carried as opaque
byte-list parameters here: header validation never interprets them. -/

def GUNFIRE_PERSISTENCE_VERSION : Nat := 10

/-- The checksummed part of a finalized save blob (bytes 8 onward):
size, build number, engine version, custom-versions offset, class path,
document bytes, custom-version table.  The custom-versions offset is the
blob length before the table is appended (`Finalize` stamps
`SaveBlob.Num()` there), and the size field is the final total length. -/
def saveBody (buildNumber : Nat)
    (ueVer classPath payload cvTable : List Nat) : List Nat :=
  le32 (20 + ueVer.length + classPath.length + payload.length +
      cvTable.length) ++
    le32 buildNumber ++ ueVer ++
    le32 (20 + ueVer.length + classPath.length + payload.length) ++
    classPath ++ payload ++ cvTable

/-- `UPersistenceManager::WriteSave` followed by `FSaveHeader::Finalize`:
version field, then the CRC over everything from byte 8 on, then that
checksummed body. -/
def writeSave (buildNumber : Nat) (ueVer classPath payload cvTable : List Nat) :
    List Nat :=
  le32 GUNFIRE_PERSISTENCE_VERSION ++
    le32 (memCrc32 (saveBody buildNumber ueVer classPath payload cvTable)) ++
    saveBody buildNumber ueVer classPath payload cvTable

/-- `UPersistenceManager::FSaveHeader::Read`: validates the header of a
save blob.  Returns the load result together with the archive position
(bytes consumed) at the point of return; on `Success` the position is 16
(the version, checksum, size and build-number fields), after which the
code goes on to read the engine version, class path and document data.
`curBuild` is the bound `GetBuildNumber` delegate result (0 when unbound). -/
def saveHeaderRead (curBuild : Int) (blob : List Nat) :
    EPersistenceLoadResult × Nat :=
  if u32At blob 0 < 10 then (.Corrupt, 4)
  else if GUNFIRE_PERSISTENCE_VERSION < u32At blob 0 then (.TooNew, 4)
  else if (blob.length : Int) < asInt32 (u32At blob 8) then (.Corrupt, 12)
  else if memCrc32 ((blob.drop 8).take (asInt32 (u32At blob 8) - 8).toNat) ≠
      u32At blob 4 then (.Corrupt, 12)
  else if curBuild ≠ 0 ∧ curBuild < asInt32 (u32At blob 12) then (.TooNew, 16)
  else (.Success, 16)

/-- `UPersistenceManager::VerifySaveIntegrity`: header validation only;
an empty blob is reported corrupt. -/
def verifySaveIntegrity (curBuild : Int) (blob : List Nat) :
    Bool × EPersistenceLoadResult :=
  if blob.length = 0 then (false, .Corrupt)
  else
    let r := (saveHeaderRead curBuild blob).1
    (r = .Success, r)

/-- Header phase of `UPersistenceManager::ReadSave`: an empty blob
returns early without a result (`none`); otherwise the header result.
On `Success` the code then reconstructs the document object graph. -/
def readSaveHeader (curBuild : Int) (blob : List Nat) :
    Option EPersistenceLoadResult :=
  if blob.length = 0 then none
  else some (saveHeaderRead curBuild blob).1

/-- Claim C1: a save blob whose `format_version` field decodes below 10
is rejected as `Corrupt`, and one whose field exceeds
`GUNFIRE_PERSISTENCE_VERSION` (10) is rejected as `TooNew`; in both
cases `FSaveHeader::Read` returns with only the 4 version bytes
consumed, before any further header or document data is parsed, and
`VerifySaveIntegrity` / `ReadSave` report the same result. -/
theorem c1_version_gate (curBuild : Int) (blob : List Nat) :
    (u32At blob 0 < 10 →
      saveHeaderRead curBuild blob = (.Corrupt, 4) ∧
      (verifySaveIntegrity curBuild blob).2 = .Corrupt) ∧
    (GUNFIRE_PERSISTENCE_VERSION < u32At blob 0 →
      saveHeaderRead curBuild blob = (.TooNew, 4) ∧
      (verifySaveIntegrity curBuild blob).2 = .TooNew ∧
      readSaveHeader curBuild blob = some .TooNew) := by
  constructor
  · intro h
    have hr : saveHeaderRead curBuild blob = (.Corrupt, 4) := by
      unfold saveHeaderRead
      rw [if_pos h]
    refine ⟨hr, ?_⟩
    unfold verifySaveIntegrity
    split
    · rfl
    · rw [hr]
  · intro h
    have h10 : ¬ u32At blob 0 < 10 := by
      unfold GUNFIRE_PERSISTENCE_VERSION at h; omega
    have hr : saveHeaderRead curBuild blob = (.TooNew, 4) := by
      unfold saveHeaderRead
      rw [if_neg h10, if_pos h]
    have hne : blob.length ≠ 0 := by
      intro h0
      rw [List.eq_nil_of_length_eq_zero h0] at h
      simp [u32At, GUNFIRE_PERSISTENCE_VERSION] at h
    refine ⟨hr, ?_, ?_⟩
    · unfold verifySaveIntegrity
      rw [if_neg hne, hr]
    · unfold readSaveHeader
      rw [if_neg hne, hr]

/-- Witness for C1 at concrete blobs: version 9 is corrupt, version 11
is too new. -/
theorem c1_version_gate_witness :
    saveHeaderRead 0 [9, 0, 0, 0, 5, 5] = (.Corrupt, 4) ∧
    saveHeaderRead 0 [11, 0, 0, 0, 5, 5] = (.TooNew, 4) := by
  exact ⟨((c1_version_gate 0 [9, 0, 0, 0, 5, 5]).1 (by decide)).1,
    ((c1_version_gate 0 [11, 0, 0, 0, 5, 5]).2 (by decide)).1⟩

/-! ## Claim C2: the checksum catches byte corruption -/

theorem u32At_le32_skip (n : Nat) (l : List Nat) (k : Nat) :
    u32At (le32 n ++ l) (4 + k) = u32At l k := by
  have h : (4 : Nat) + k = (le32 n).length + k := by rw [le32_length]
  rw [h, u32At_append_skip]

theorem u32At_set_le32_append (n : Nat) (l : List Nat) (k b : Nat)
    (h : 4 ≤ k) : u32At ((le32 n ++ l).set k b) 0 = n % 2 ^ 32 := by
  rw [List.set_append_right _ _ (by rw [le32_length]; omega),
    u32At_le32_append]

theorem u32At_twole32_4 (m n : Nat) (l : List Nat) :
    u32At (le32 m ++ (le32 n ++ l)) 4 = n % 2 ^ 32 := by
  rw [show (4 : Nat) = 4 + 0 from rfl, u32At_le32_skip, u32At_le32_append]

theorem u32At_twole32_8 (m n : Nat) (l : List Nat) :
    u32At (le32 m ++ (le32 n ++ l)) 8 = u32At l 0 := by
  rw [show (8 : Nat) = 4 + (4 + 0) from rfl, u32At_le32_skip,
    u32At_le32_skip]

theorem drop8_two_le32 (m n : Nat) (l : List Nat) :
    (le32 m ++ (le32 n ++ l)).drop 8 = l := by
  rw [← List.append_assoc,
    show (8 : Nat) = (le32 m ++ le32 n).length by simp [le32_length],
    List.drop_left]

theorem getD8_two_le32 (m n : Nat) (l : List Nat) (i : Nat) (h : 8 ≤ i) :
    (le32 m ++ (le32 n ++ l)).getD i 0 = l.getD (i - 8) 0 := by
  rw [← List.append_assoc, List.getD_eq_getElem?_getD,
    List.getD_eq_getElem?_getD,
    List.getElem?_append_right (by simp [le32_length]; omega)]
  simp [le32_length]

theorem saveBody_length (buildNumber : Nat)
    (ueVer classPath payload cvTable : List Nat) :
    (saveBody buildNumber ueVer classPath payload cvTable).length =
      12 + ueVer.length + classPath.length + payload.length +
        cvTable.length := by
  simp [saveBody, le32_length]
  omega

theorem saveBody_bytes (buildNumber : Nat)
    (ueVer classPath payload cvTable : List Nat)
    (hbytes : ∀ x ∈ ueVer ++ classPath ++ payload ++ cvTable, x < 256) :
    ∀ x ∈ saveBody buildNumber ueVer classPath payload cvTable, x < 256 := by
  intro x hx
  simp only [saveBody, List.mem_append] at hx
  simp only [List.mem_append] at hbytes
  rcases hx with ((((((h | h) | h) | h) | h) | h) | h)
  · exact le32_lt _ x h
  · exact le32_lt _ x h
  · exact hbytes x (Or.inl (Or.inl (Or.inl h)))
  · exact le32_lt _ x h
  · exact hbytes x (Or.inl (Or.inl (Or.inr h)))
  · exact hbytes x (Or.inl (Or.inr h))
  · exact hbytes x (Or.inr h)

theorem writeSave_assoc (buildNumber : Nat)
    (ueVer classPath payload cvTable : List Nat) :
    writeSave buildNumber ueVer classPath payload cvTable =
      (le32 GUNFIRE_PERSISTENCE_VERSION ++
        le32 (memCrc32 (saveBody buildNumber ueVer classPath payload
          cvTable))) ++
        saveBody buildNumber ueVer classPath payload cvTable := rfl

theorem saveBody_ra (buildNumber : Nat)
    (ueVer classPath payload cvTable : List Nat) :
    saveBody buildNumber ueVer classPath payload cvTable =
      le32 (20 + ueVer.length + classPath.length + payload.length +
          cvTable.length) ++
        (le32 buildNumber ++ (ueVer ++
          (le32 (20 + ueVer.length + classPath.length + payload.length) ++
            (classPath ++ (payload ++ cvTable))))) := by
  simp [saveBody, List.append_assoc]

/-- Claim C2 (amended): for every blob produced by `WriteSave`, any
single-byte modification at an offset `≥ 12` (that is, past the version,
checksum and size fields) makes `FSaveHeader::Read` fail the CRC check
and return `Corrupt` at position 12, before the build number, class path
or document data is interpreted; `VerifySaveIntegrity` and `ReadSave`
report the same.  Additionally (second conjunct), any blob whose declared
size field exceeds the actual buffer length is reported `Corrupt`. -/
theorem c2_checksum_guard (curBuild : Int) (buildNumber : Nat)
    (ueVer classPath payload cvTable : List Nat)
    (hbytes : ∀ x ∈ ueVer ++ classPath ++ payload ++ cvTable, x < 256)
    (hsize : 20 + ueVer.length + classPath.length + payload.length +
      cvTable.length < 2 ^ 31)
    (i b : Nat) (hi : 12 ≤ i)
    (hilt : i < (writeSave buildNumber ueVer classPath payload
      cvTable).length)
    (hblt : b < 256)
    (hne : b ≠ (writeSave buildNumber ueVer classPath payload
      cvTable).getD i 0) :
    (saveHeaderRead curBuild
        ((writeSave buildNumber ueVer classPath payload cvTable).set i b) =
        (.Corrupt, 12) ∧
      (verifySaveIntegrity curBuild
        ((writeSave buildNumber ueVer classPath payload cvTable).set i b)).2 =
        .Corrupt ∧
      readSaveHeader curBuild
        ((writeSave buildNumber ueVer classPath payload cvTable).set i b) =
        some .Corrupt) ∧
    (∀ blob : List Nat, u32At blob 0 = 10 →
      (blob.length : Int) < asInt32 (u32At blob 8) →
      saveHeaderRead curBuild blob = (.Corrupt, 12)) := by
  have hsizegen : ∀ blob : List Nat, u32At blob 0 = 10 →
      (blob.length : Int) < asInt32 (u32At blob 8) →
      saveHeaderRead curBuild blob = (.Corrupt, 12) := by
    intro blob hv hlt
    unfold saveHeaderRead GUNFIRE_PERSISTENCE_VERSION
    rw [hv, if_neg (by omega), if_neg (by omega), if_pos hlt]
  refine ⟨?_, hsizegen⟩
  -- abbreviations for the rest of the proof
  have hbody := saveBody_bytes buildNumber ueVer classPath payload cvTable
    hbytes
  have hblen := saveBody_length buildNumber ueVer classPath payload cvTable
  have hcrclt := memCrc32_lt hbody
  -- the modified blob, rewritten as prefix-plus-modified-body
  have hset : (writeSave buildNumber ueVer classPath payload cvTable).set i b
      = (le32 GUNFIRE_PERSISTENCE_VERSION ++
          le32 (memCrc32 (saveBody buildNumber ueVer classPath payload
            cvTable))) ++
        (saveBody buildNumber ueVer classPath payload cvTable).set (i - 8)
          b := by
    rw [writeSave_assoc, List.set_append_right _ _ (by
      simp [le32_length]; omega)]
    simp [le32_length]
  have hW0len : (writeSave buildNumber ueVer classPath payload
      cvTable).length = 12 + ueVer.length + classPath.length +
        payload.length + cvTable.length + 8 := by
    rw [writeSave_assoc, List.length_append, hblen]
    simp only [List.length_append, le32_length]
    omega
  have hWlen : ((writeSave buildNumber ueVer classPath payload
      cvTable).set i b).length = 12 + ueVer.length + classPath.length +
        payload.length + cvTable.length + 8 := by
    rw [List.length_set, hW0len]
  have hb2len : ((saveBody buildNumber ueVer classPath payload
      cvTable).set (i - 8) b).length = 12 + ueVer.length +
        classPath.length + payload.length + cvTable.length := by
    rw [List.length_set, hblen]
  -- the four header fields of the modified blob
  have hv0 : u32At ((writeSave buildNumber ueVer classPath payload
      cvTable).set i b) 0 = 10 := by
    rw [hset]
    simp only [List.append_assoc]
    rw [u32At_le32_append]
    decide
  have hv4 : u32At ((writeSave buildNumber ueVer classPath payload
      cvTable).set i b) 4 =
      memCrc32 (saveBody buildNumber ueVer classPath payload cvTable) := by
    rw [hset]
    simp only [List.append_assoc]
    rw [u32At_twole32_4]
    exact Nat.mod_eq_of_lt hcrclt
  have hv8 : u32At ((writeSave buildNumber ueVer classPath payload
      cvTable).set i b) 8 = 20 + ueVer.length + classPath.length +
        payload.length + cvTable.length := by
    rw [hset]
    simp only [List.append_assoc]
    rw [u32At_twole32_8, saveBody_ra,
      u32At_set_le32_append _ _ (i - 8) b (by omega)]
    omega
  have hasz : asInt32 (20 + ueVer.length + classPath.length +
      payload.length + cvTable.length) = ((20 + ueVer.length +
        classPath.length + payload.length + cvTable.length : Nat) : Int) := by
    unfold asInt32
    rw [if_pos hsize]
  have hdrop : ((writeSave buildNumber ueVer classPath payload
      cvTable).set i b).drop 8 =
      (saveBody buildNumber ueVer classPath payload cvTable).set (i - 8)
        b := by
    rw [hset]
    simp only [List.append_assoc]
    rw [drop8_two_le32]
  have hgetD : (writeSave buildNumber ueVer classPath payload
      cvTable).getD i 0 =
      (saveBody buildNumber ueVer classPath payload cvTable).getD (i - 8)
        0 := by
    unfold writeSave
    simp only [List.append_assoc]
    rw [getD8_two_le32 _ _ _ _ (by omega)]
  have hkne : memCrc32 ((saveBody buildNumber ueVer classPath payload
      cvTable).set (i - 8) b) ≠
      memCrc32 (saveBody buildNumber ueVer classPath payload cvTable) := by
    refine memCrc32_set_ne hbody ?_ hblt ?_
    · rw [hblen]
      rw [hW0len] at hilt
      omega
    · rw [← hgetD]
      exact hne
  have hres : saveHeaderRead curBuild ((writeSave buildNumber ueVer
      classPath payload cvTable).set i b) = (.Corrupt, 12) := by
    unfold saveHeaderRead GUNFIRE_PERSISTENCE_VERSION
    rw [hv0, if_neg (by omega), if_neg (by omega), hv8, hasz, hWlen,
      if_neg (by push_cast; omega)]
    rw [hdrop]
    have htk : ((((20 + ueVer.length + classPath.length + payload.length +
        cvTable.length : Nat) : Int)) - 8).toNat =
        ((saveBody buildNumber ueVer classPath payload cvTable).set (i - 8)
          b).length := by
      rw [hb2len]
      omega
    rw [htk, List.take_length, hv4, if_pos hkne]
  refine ⟨hres, ?_, ?_⟩
  · unfold verifySaveIntegrity
    rw [if_neg (by rw [hWlen]; omega), hres]
  · unfold readSaveHeader
    rw [if_neg (by rw [hWlen]; omega), hres]

/-- A concrete `WriteSave` output (build number 0, an 8-byte engine
version stamp, empty class path and custom-version table, a 12-byte
document payload) whose final four payload bytes are chosen so that the
CRC of the blob truncated to 28 checksummed bytes collides with the
stored checksum. -/
def c2Blob : List Nat :=
  writeSave 0 [0, 0, 0, 0, 0, 0, 0, 0] []
    [0, 0, 0, 0, 0, 0, 0, 0, 65, 66, 223, 187] []

/-- Counterexample to claim C2 as stated: modifying the single byte at
offset 8 (the low byte of the declared size field, an offset `≥ 8`) of
this `WriteSave` output from 40 to 36 shortens the checksummed range,
and the CRC over the shortened range collides with the stored checksum,
so `FSaveHeader::Read` and `VerifySaveIntegrity` accept the modified
blob instead of reporting `Corrupt`. -/
theorem c2_claim_counterexample :
    8 ≤ 8 ∧ 8 < c2Blob.length ∧ 36 < 256 ∧ 36 ≠ c2Blob.getD 8 0 ∧
    (saveHeaderRead 0 (c2Blob.set 8 36)).1 = .Success ∧
    (verifySaveIntegrity 0 (c2Blob.set 8 36)).1 = true := by
  decide

/-- Witness for C2 (amended) at a concrete input: byte 12 of a concrete
save blob flipped to 99 is reported `Corrupt`. -/
theorem c2_checksum_guard_witness :
    saveHeaderRead 0 ((writeSave 0 [0, 0, 0, 0, 0, 0, 0, 0] [7] [1, 2, 3]
      [4]).set 12 99) = (.Corrupt, 12) := by
  exact (((c2_checksum_guard 0 0 [0, 0, 0, 0, 0, 0, 0, 0] [7] [1, 2, 3] [4]
    (by decide) (by decide) 12 99 (by decide) (by decide) (by decide)
    (by decide)).1).1)

/-! ## Claim C8: level-offset symmetry (`PersistenceManager.cpp` 1717-1753)

`FVector` coordinates are engine doubles; they are modeled as exact
rationals, which captures the algebraic subtract-then-add symmetry the
code relies on (the spec sets floating-point rounding aside). -/

/-- Engine `FVector`, with exact-rational coordinates. -/
structure FVector where
  x : ℚ
  y : ℚ
  z : ℚ
deriving DecidableEq, Repr

def vadd (a b : FVector) : FVector := ⟨a.x + b.x, a.y + b.y, a.z + b.z⟩

def vsub (a b : FVector) : FVector := ⟨a.x - b.x, a.y - b.y, a.z - b.z⟩

/-- Engine `FTransform`: rotation quaternion, translation, 3D scale.
Only the location component is touched by the level-offset helpers. -/
structure FTransform where
  rotation : ℚ × ℚ × ℚ × ℚ
  location : FVector
  scale3D : FVector
deriving DecidableEq, Repr

/-- `UPersistenceManager::FLevelOffset`: a weak reference to a streaming
level (`none` when stale or not loaded) and the offset to strip. -/
structure FLevelOffset where
  level : Option Nat
  offset : FVector
deriving DecidableEq, Repr

/-- `UPersistenceManager::RemoveLevelOffset`: subtract the offset of the
first list entry whose loaded level matches, then stop. -/
def removeLevelOffset : List FLevelOffset → Nat → FTransform → FTransform
  | [], _, t => t
  | e :: rest, lvl, t =>
    if e.level = some lvl then
      { t with location := vsub t.location e.offset }
    else removeLevelOffset rest lvl t

/-- `UPersistenceManager::AddLevelOffset`: add the offset of the first
list entry whose loaded level matches, then stop. -/
def addLevelOffset : List FLevelOffset → Nat → FTransform → FTransform
  | [], _, t => t
  | e :: rest, lvl, t =>
    if e.level = some lvl then
      { t with location := vadd t.location e.offset }
    else addLevelOffset rest lvl t

theorem vadd_vsub_cancel (a b : FVector) : vadd (vsub a b) b = a := by
  cases a
  cases b
  simp [vadd, vsub]

theorem addLevelOffset_removeLevelOffset (offs : List FLevelOffset)
    (lvl : Nat) (t : FTransform) :
    addLevelOffset offs lvl (removeLevelOffset offs lvl t) = t := by
  induction offs with
  | nil => rfl
  | cons e rest ih =>
    by_cases h : e.level = some lvl
    · simp [removeLevelOffset, addLevelOffset, h, vadd_vsub_cancel]
    · simp only [removeLevelOffset, addLevelOffset, if_neg h]
      exact ih

theorem removeLevelOffset_rotation (offs : List FLevelOffset) (lvl : Nat)
    (t : FTransform) :
    (removeLevelOffset offs lvl t).rotation = t.rotation ∧
    (removeLevelOffset offs lvl t).scale3D = t.scale3D := by
  induction offs with
  | nil => exact ⟨rfl, rfl⟩
  | cons e rest ih =>
    by_cases h : e.level = some lvl
    · simp [removeLevelOffset, h]
    · simp only [removeLevelOffset, if_neg h]
      exact ih

/-- Claim C8: for every level and transform, `AddLevelOffset` after
`RemoveLevelOffset` over the same offset list is the identity — the same
(first matching) offset entry is subtracted and added back, and the
rotation and scale components are never touched. -/
theorem c8_level_offset_roundtrip (offs : List FLevelOffset) (lvl : Nat)
    (t : FTransform) :
    addLevelOffset offs lvl (removeLevelOffset offs lvl t) = t ∧
    (removeLevelOffset offs lvl t).rotation = t.rotation ∧
    (removeLevelOffset offs lvl t).scale3D = t.scale3D :=
  ⟨addLevelOffset_removeLevelOffset offs lvl t,
    removeLevelOffset_rotation offs lvl t⟩

/-! ## Windows save backend (`WindowsSaveGameSystem.cpp`)

The filesystem is modeled per save name: the paths the backend touches
for one name are the live `.sav` file, the numbered `.bak<n>` backups,
the `.tmp` staging file and the timestamped `_<time>.corrupt` renames.
Files carry their contents and modification time; times are modeled as
integers.  `IPlatformFile` move/copy/delete primitives are engine code;
following their documented behavior, a move fails when the source is
missing or the destination exists, and the callers here always delete an
existing destination first where that matters. -/

/-- A file on disk: contents plus modification time. -/
structure WFile where
  data : List Nat
  mtime : Int
deriving DecidableEq, Repr

/-- The paths the Windows backend derives from one save name. -/
inductive WPath where
  | live : WPath
  | bak : Nat → WPath
  | tmp : WPath
  | corrupt : Int → WPath
deriving DecidableEq, Repr

def WinFS := WPath → Option WFile

def fsUpd (fs : WinFS) (p : WPath) (v : Option WFile) : WinFS :=
  fun q => if q = p then v else fs q

def emptyFS : WinFS := fun _ => none

/-- `IPlatformFile::MoveFile`: fails if the source is missing or the
destination already exists. -/
def moveFile (fs : WinFS) (dest src : WPath) : WinFS × Bool :=
  match fs src with
  | none => (fs, false)
  | some f =>
    if (fs dest).isSome then (fs, false)
    else (fsUpd (fsUpd fs src none) dest (some f), true)

/-- `IPlatformFile::CopyFile`: the copy gets the current time as its
modification time. -/
def copyFile (fs : WinFS) (dest src : WPath) (now : Int) : WinFS × Bool :=
  match fs src with
  | none => (fs, false)
  | some f => (fsUpd fs dest (some ⟨f.data, now⟩), true)

def setTimeStamp (fs : WinFS) (p : WPath) (t : Int) : WinFS :=
  match fs p with
  | none => fs
  | some f => fsUpd fs p (some ⟨f.data, t⟩)

def deleteFile (fs : WinFS) (p : WPath) : WinFS := fsUpd fs p none

/-- `FWindowsSaveGameSystem` state for one save name: the backup
settings and the `LastBackupTime` entry for that name. -/
structure WinSys where
  numBackups : Int
  backupIntervalSeconds : Int
  lastBackupTime : Option Int
deriving DecidableEq, Repr

/-- One iteration of the `RotateBackups` loop at index `i`: shift the
live file (for `i = 0`) or backup `i` up into backup `i + 1`, deleting
any existing occupant first; the live file is copied rather than moved,
with its timestamp restored on the copy. -/
def rotStep (now : Int) (fs : WinFS) (i : Nat) : WinFS :=
  let cur := if i = 0 then WPath.live else WPath.bak i
  let next := WPath.bak (i + 1)
  match fs cur with
  | none => fs
  | some f =>
    let fs1 := if (fs next).isSome then deleteFile fs next else fs
    if i = 0 then setTimeStamp (copyFile fs1 next cur now).1 next f.mtime
    else (moveFile fs1 next cur).1

/-- `FWindowsSaveGameSystem::RotateBackups`: no-op when backups are
disabled; the first save of a run only records the time; otherwise
rotate only when the backup interval has elapsed, walking the chain from
the oldest slot down to the live file. -/
def rotateBackups (sys : WinSys) (fs : WinFS) (now : Int) :
    WinSys × WinFS :=
  if sys.numBackups ≤ 0 then (sys, fs)
  else
    match sys.lastBackupTime with
    | none => ({ sys with lastBackupTime := some now }, fs)
    | some t =>
      if now < t + sys.backupIntervalSeconds then (sys, fs)
      else
        ({ sys with lastBackupTime := some now },
          ((List.range sys.numBackups.toNat).reverse).foldl (rotStep now) fs)

/-- `FWindowsSaveGameSystem::SaveGame`: write the data to the temp file,
rotate backups, delete the previous live file and move the temp file
into place. -/
def saveGame (sys : WinSys) (fs : WinFS) (data : List Nat) (now : Int) :
    WinSys × WinFS × Bool :=
  let fs1 := fsUpd fs .tmp (some ⟨data, now⟩)
  let sr := rotateBackups sys fs1 now
  let fs3 := if (sr.2 .live).isSome then deleteFile sr.2 .live else sr.2
  let mv := moveFile fs3 .live .tmp
  (sr.1, mv.1, mv.2)

/-- Three successive saves of the same name with backup count 3,
starting from an empty filesystem and a fresh process (no backup time
recorded), with the backup interval `I` elapsed before the second and
third saves. -/
def c3Chain (I : Int) (d1 d2 d3 : List Nat) : WinFS :=
  let r1 := saveGame ⟨3, I, none⟩ emptyFS d1 0
  let r2 := saveGame r1.1 r1.2.1 d2 I
  (saveGame r2.1 r2.2.1 d3 (I + I)).2.1

/-- Claim C3 (amended): with backup count 3 and the interval elapsed
before each later save, three successive saves leave the live file with
the third save's content, `.bak1` with the *second* save's content and
`.bak2` with the *first* save's content (the first save of the run never
rotates, and each rotation copies the about-to-be-overwritten live save
into `.bak1`, pushing older content up the chain). -/
theorem c3_backup_rotation_chain (I : Int) (d1 d2 d3 : List Nat) :
    c3Chain I d1 d2 d3 WPath.live = some ⟨d3, I + I⟩ ∧
    c3Chain I d1 d2 d3 (WPath.bak 1) = some ⟨d2, I⟩ ∧
    c3Chain I d1 d2 d3 (WPath.bak 2) = some ⟨d1, 0⟩ ∧
    c3Chain I d1 d2 d3 (WPath.bak 3) = none ∧
    c3Chain I d1 d2 d3 WPath.tmp = none := by
  have h1 : ¬ (I < 0 + I) := by omega
  have h2 : ¬ (I + I < I + I) := by omega
  have h3 : ¬ ((3 : Int) ≤ 0) := by omega
  refine ⟨?_, ?_, ?_, ?_, ?_⟩ <;>
    simp [c3Chain, saveGame, rotateBackups, rotStep, moveFile, copyFile,
      setTimeStamp, deleteFile, fsUpd, emptyFS, h1, h2, h3, List.range_succ]

/-- Counterexample to claim C3 as stated: after three saves (contents
`[1]`, `[2]`, `[3]`) `.bak1` holds the second save's content `[2]`, not
the first save's content `[1]` (which ends up in `.bak2`). -/
theorem c3_claim_counterexample :
    c3Chain 1 [1] [2] [3] (WPath.bak 1) = some ⟨[2], 1⟩ ∧
    c3Chain 1 [1] [2] [3] (WPath.bak 1) ≠ some ⟨[1], 0⟩ ∧
    c3Chain 1 [1] [2] [3] (WPath.bak 2) = some ⟨[1], 0⟩ ∧
    c3Chain 1 [1] [2] [3] WPath.live = some ⟨[3], 2⟩ := by
  refine ⟨?_, ?_, ?_, ?_⟩ <;> decide

/-! ## Claim C7: backup restore on corrupt saves

`FWindowsSaveGameSystem::RestoreBackup` and the restore-and-recheck
loops in `DoesSaveGameExistWithResult` (WindowsSaveGameSystem.cpp
138-167) and `UPersistenceManager::LoadSaveGame` / `DoesSaveGameExist`
(PersistenceManager.cpp 2031-2099).  Whether a given file's bytes count
as corrupt is decided by the engine's generic save existence check and
by `VerifySaveIntegrity`; both are abstracted by one corruption
predicate `P` on file contents (modelled from the spec: the generic
engine check is not part of this repository). -/

/-- The backup slot indices `1..n`. -/
def slotList (n : Nat) : List Nat := (List.range n).map (· + 1)

/-- The existing backup files of slots `1..n`, in slot order. -/
def bakFiles (n : Nat) (fs : WinFS) : List WFile :=
  (slotList n).filterMap (fun i => fs (WPath.bak i))

def bakCount (n : Nat) (fs : WinFS) : Nat := (bakFiles n fs).length

/-- One iteration of the `RestoreBackup` promotion loop at slot `i`,
carrying `(filesystem, DestRevision, bResult)`: if backup `i` exists,
move it to the live slot (when no backup has been seen yet) or down to
backup slot `DestRevision`, deleting any existing occupant first; the
move into the live slot determines the returned result. -/
def restoreStep (st : WinFS × Nat × Bool) (i : Nat) : WinFS × Nat × Bool :=
  match st.1 (WPath.bak i) with
  | none => st
  | some _ =>
    let dest := if st.2.1 = 0 then WPath.live else WPath.bak st.2.1
    let fs1 := if (st.1 dest).isSome then deleteFile st.1 dest else st.1
    let mv := moveFile fs1 dest (WPath.bak i)
    (mv.1, st.2.1 + 1, if st.2.1 = 0 then mv.2 else st.2.2)

def restoreLoop (fs : WinFS) (slots : List Nat) : WinFS × Nat × Bool :=
  slots.foldl restoreStep (fs, 0, false)

/-- First phase of `RestoreBackup`: if the (presumed corrupt) live file
exists, rename it aside under a timestamped `.corrupt` name for later
inspection (the result of this move is not checked). -/
def renameAsideCorrupt (fs : WinFS) : WinFS :=
  match fs WPath.live with
  | some f => (moveFile fs (WPath.corrupt f.mtime) WPath.live).1
  | none => fs

/-- `FWindowsSaveGameSystem::RestoreBackup` for backup count `n`: rename
the corrupt live file aside, then promote the backup chain, collapsing
gaps; the result reports whether a backup was moved into the live slot. -/
def restoreBackup (n : Nat) (fs : WinFS) : WinFS × Bool :=
  let r := restoreLoop (renameAsideCorrupt fs) (slotList n)
  (r.1, r.2.2)

theorem fsUpd_same (fs : WinFS) (p : WPath) (v : Option WFile) :
    fsUpd fs p v p = v := by simp [fsUpd]

theorem fsUpd_other (fs : WinFS) (p : WPath) (v : Option WFile) (q : WPath)
    (h : q ≠ p) : fsUpd fs p v q = fs q := by simp [fsUpd, h]

theorem headOr_append_ne_nil {f : WFile} {L : List WFile} (h : L ≠ []) :
    (L ++ [f]).head? = L.head? := by
  cases L with
  | nil => exact absurd rfl h
  | cons a t => rfl

theorem bakFiles_length_le (n : Nat) (fs : WinFS) :
    (bakFiles n fs).length ≤ n := by
  calc (bakFiles n fs).length ≤ (slotList n).length :=
        List.length_filterMap_le _ _
    _ = n := by simp [slotList]

theorem slotList_succ (n : Nat) :
    slotList (n + 1) = slotList n ++ [n + 1] := by
  simp [slotList, List.range_succ]

theorem bakFiles_succ (n : Nat) (fs : WinFS) :
    bakFiles (n + 1) fs = bakFiles n fs ++ (fs (WPath.bak (n + 1))).toList := by
  rw [bakFiles, slotList_succ, List.filterMap_append, bakFiles]
  rfl

theorem restoreStep_none (st : WinFS × Nat × Bool) (i : Nat)
    (h : st.1 (WPath.bak i) = none) : restoreStep st i = st := by
  rw [restoreStep, h]

theorem restoreStep_some (st : WinFS × Nat × Bool) (i : Nat) (f : WFile)
    (dest : WPath)
    (hdd : (if st.2.1 = 0 then WPath.live else WPath.bak st.2.1) = dest)
    (h : st.1 (WPath.bak i) = some f) (hne : dest ≠ WPath.bak i) :
    restoreStep st i =
      (fsUpd (fsUpd st.1 (WPath.bak i) none) dest (some f),
        st.2.1 + 1, if st.2.1 = 0 then true else st.2.2) := by
  rw [restoreStep, h]
  simp only [hdd]
  have hsrc : (if (st.1 dest).isSome then deleteFile st.1 dest else st.1)
      (WPath.bak i) = some f := by
    by_cases hc : (st.1 dest).isSome
    · rw [if_pos hc, deleteFile, fsUpd_other _ _ _ _ (Ne.symm hne)]
      exact h
    · rw [if_neg hc]
      exact h
  have hdst : (if (st.1 dest).isSome then deleteFile st.1 dest else st.1)
      dest = none := by
    by_cases hc : (st.1 dest).isSome
    · rw [if_pos hc, deleteFile, fsUpd_same]
    · rw [if_neg hc]
      exact Option.not_isSome_iff_eq_none.mp hc
  have hfs : fsUpd (fsUpd
      (if (st.1 dest).isSome then deleteFile st.1 dest else st.1)
      (WPath.bak i) none) dest (some f) =
      fsUpd (fsUpd st.1 (WPath.bak i) none) dest (some f) := by
    funext q
    by_cases hq1 : q = dest
    · rw [hq1, fsUpd_same, fsUpd_same]
    · rw [fsUpd_other _ _ _ _ hq1, fsUpd_other _ _ _ _ hq1]
      by_cases hq2 : q = WPath.bak i
      · rw [hq2, fsUpd_same, fsUpd_same]
      · rw [fsUpd_other _ _ _ _ hq2, fsUpd_other _ _ _ _ hq2]
        by_cases hc : (st.1 dest).isSome
        · rw [if_pos hc, deleteFile, fsUpd_other _ _ _ _ hq1]
        · rw [if_neg hc]
  have hmv : moveFile
      (if (st.1 dest).isSome then deleteFile st.1 dest else st.1) dest
      (WPath.bak i) =
      (fsUpd (fsUpd st.1 (WPath.bak i) none) dest (some f), true) := by
    rw [moveFile.eq_def, hsrc]
    simp only [hdst, Option.isSome_none, Bool.false_eq_true, if_false, hfs]
  rw [hmv]

/-- Characterization of the `RestoreBackup` promotion loop over slots
`1..n`: writing `L` for the existing backups in slot order, the loop
promotes the first one to the live slot, shifts the rest down so that
backup slot `d` afterwards holds `L[d]`, reports how many backups it
saw, and succeeds exactly when at least one backup existed; other paths
are untouched. -/
theorem restoreLoop_spec (fs0 : WinFS) (n : Nat) :
    (restoreLoop fs0 (slotList n)).2.1 = (bakFiles n fs0).length ∧
    (restoreLoop fs0 (slotList n)).2.2 = !(bakFiles n fs0).isEmpty ∧
    (restoreLoop fs0 (slotList n)).1 WPath.live =
      ((bakFiles n fs0).head?).or (fs0 WPath.live) ∧
    (∀ d, 1 ≤ d → d ≤ n →
      (restoreLoop fs0 (slotList n)).1 (WPath.bak d) =
        (bakFiles n fs0)[d]?) ∧
    (∀ d, n < d →
      (restoreLoop fs0 (slotList n)).1 (WPath.bak d) = fs0 (WPath.bak d)) ∧
    (restoreLoop fs0 (slotList n)).1 WPath.tmp = fs0 WPath.tmp ∧
    (∀ t, (restoreLoop fs0 (slotList n)).1 (WPath.corrupt t) =
      fs0 (WPath.corrupt t)) := by
  induction n with
  | zero =>
    refine ⟨rfl, rfl, by simp [restoreLoop, slotList, bakFiles], ?_, ?_, rfl,
      fun t => rfl⟩
    · intro d h1 h2; omega
    · intro d hd; rfl
  | succ n ih =>
    obtain ⟨ih1, ih2, ih3, ih4, ih5, ih6, ih7⟩ := ih
    have hfold : restoreLoop fs0 (slotList (n + 1)) =
        restoreStep (restoreLoop fs0 (slotList n)) (n + 1) := by
      rw [restoreLoop, slotList_succ, List.foldl_append]
      rfl
    have hlenle := bakFiles_length_le n fs0
    have hbn1 : (restoreLoop fs0 (slotList n)).1 (WPath.bak (n + 1)) =
        fs0 (WPath.bak (n + 1)) := ih5 (n + 1) (by omega)
    cases hb : fs0 (WPath.bak (n + 1)) with
    | none =>
      have hstep : restoreLoop fs0 (slotList (n + 1)) =
          restoreLoop fs0 (slotList n) := by
        rw [hfold, restoreStep_none _ _ (by rw [hbn1, hb])]
      have hLeq : bakFiles (n + 1) fs0 = bakFiles n fs0 := by
        rw [bakFiles_succ, hb]
        simp
      rw [hstep, hLeq]
      refine ⟨ih1, ih2, ih3, ?_, ?_, ih6, ih7⟩
      · intro d h1 h2
        rcases Nat.lt_or_ge d (n + 1) with hd | hd
        · exact ih4 d h1 (by omega)
        · have hde : d = n + 1 := by omega
          subst hde
          rw [hbn1, hb, List.getElem?_eq_none (by omega)]
      · intro d hd
        exact ih5 d (by omega)
    | some f =>
      have hLeq : bakFiles (n + 1) fs0 = bakFiles n fs0 ++ [f] := by
        rw [bakFiles_succ, hb]
        rfl
      have hLlen : (bakFiles (n + 1) fs0).length =
          (bakFiles n fs0).length + 1 := by
        rw [hLeq, List.length_append, List.length_cons, List.length_nil]
      by_cases hL : bakFiles n fs0 = []
      · -- first existing backup: it is promoted into the live slot
        have hk : (restoreLoop fs0 (slotList n)).2.1 = 0 := by
          rw [ih1, hL, List.length_nil]
        have hstep : restoreLoop fs0 (slotList (n + 1)) =
            (fsUpd (fsUpd (restoreLoop fs0 (slotList n)).1
                (WPath.bak (n + 1)) none) WPath.live (some f),
              (restoreLoop fs0 (slotList n)).2.1 + 1,
              if (restoreLoop fs0 (slotList n)).2.1 = 0 then true
                else (restoreLoop fs0 (slotList n)).2.2) := by
          rw [hfold, restoreStep_some _ _ f WPath.live (by simp [hk])
            (by rw [hbn1, hb]) (by simp)]
        rw [hstep, hk]
        rw [hLeq, hL, List.nil_append]
        dsimp only
        refine ⟨rfl, rfl, ?_, ?_, ?_, ?_, ?_⟩
        · rw [fsUpd_same]
          rfl
        · intro d h1 h2
          rw [List.getElem?_eq_none (by simp; omega)]
          rw [fsUpd_other _ _ _ _ (by simp)]
          by_cases hd : d = n + 1
          · subst hd
            rw [fsUpd_same]
          · rw [fsUpd_other _ _ _ _ (by simp [hd])]
            rw [ih4 d h1 (by omega), hL]
            simp
        · intro d hd
          rw [fsUpd_other _ _ _ _ (by simp),
            fsUpd_other _ _ _ _ (by simp only [ne_eq, WPath.bak.injEq]; omega)]
          exact ih5 d (by omega)
        · rw [fsUpd_other _ _ _ _ (by simp),
            fsUpd_other _ _ _ _ (by simp)]
          exact ih6
        · intro t
          rw [fsUpd_other _ _ _ _ (by simp),
            fsUpd_other _ _ _ _ (by simp)]
          exact ih7 t
      · -- later backups shift down one slot
        have hkpos : 0 < (bakFiles n fs0).length :=
          List.length_pos.mpr hL
        have hknz : ¬ (restoreLoop fs0 (slotList n)).2.1 = 0 := by
          rw [ih1]
          omega
        have hstep : restoreLoop fs0 (slotList (n + 1)) =
            (fsUpd (fsUpd (restoreLoop fs0 (slotList n)).1
                (WPath.bak (n + 1)) none)
              (WPath.bak ((bakFiles n fs0).length)) (some f),
              (restoreLoop fs0 (slotList n)).2.1 + 1,
              if (restoreLoop fs0 (slotList n)).2.1 = 0 then true
                else (restoreLoop fs0 (slotList n)).2.2) := by
          rw [hfold, restoreStep_some _ _ f
            (WPath.bak ((bakFiles n fs0).length))
            (by rw [ih1, if_neg (by omega)]) (by rw [hbn1, hb])
            (by simp only [ne_eq, WPath.bak.injEq]; omega)]
        rw [hstep]
        dsimp only
        simp only [if_neg hknz]
        refine ⟨?_, ?_, ?_, ?_, ?_, ?_, ?_⟩
        · rw [ih1, hLlen]
        · cases hbf : bakFiles n fs0 with
          | nil => exact absurd hbf hL
          | cons a tl =>
            rw [ih2, hLeq, hbf]
            rfl
        · rw [fsUpd_other _ _ _ _ (by simp),
            fsUpd_other _ _ _ _ (by simp), ih3, hLeq,
            headOr_append_ne_nil hL]
        · intro d h1 h2
          by_cases hdk : d = (bakFiles n fs0).length
          · rw [hdk, fsUpd_same, hLeq,
              List.getElem?_append_right (Nat.le_refl _), Nat.sub_self]
            rfl
          · rw [fsUpd_other _ _ _ _ (by
              simp only [ne_eq, WPath.bak.injEq]; omega)]
            by_cases hd1 : d = n + 1
            · subst hd1
              rw [fsUpd_same, List.getElem?_eq_none (by omega)]
            · rw [fsUpd_other _ _ _ _ (by simp [hd1])]
              rcases Nat.lt_or_ge d (bakFiles n fs0).length with hlt | hge
              · rw [ih4 d h1 (by omega), hLeq,
                  List.getElem?_append_left hlt]
              · rw [ih4 d h1 (by omega), hLeq,
                  List.getElem?_eq_none (by omega),
                  List.getElem?_eq_none (by simp; omega)]
        · intro d hd
          rw [fsUpd_other _ _ _ _ (by
              simp only [ne_eq, WPath.bak.injEq]; omega),
            fsUpd_other _ _ _ _ (by simp only [ne_eq, WPath.bak.injEq]; omega)]
          exact ih5 d (by omega)
        · rw [fsUpd_other _ _ _ _ (by simp),
            fsUpd_other _ _ _ _ (by simp)]
          exact ih6
        · intro t
          rw [fsUpd_other _ _ _ _ (by simp),
            fsUpd_other _ _ _ _ (by simp)]
          exact ih7 t

theorem renameAsideCorrupt_other (fs : WinFS) (q : WPath)
    (hq1 : q ≠ WPath.live) (hq2 : ∀ t, q ≠ WPath.corrupt t) :
    renameAsideCorrupt fs q = fs q := by
  unfold renameAsideCorrupt
  cases hl : fs WPath.live with
  | none => rfl
  | some f =>
    unfold moveFile
    rw [hl]
    dsimp only
    by_cases hc : (fs (WPath.corrupt f.mtime)).isSome
    · rw [if_pos hc]
    · rw [if_neg hc]
      dsimp only
      rw [fsUpd_other _ _ _ _ (hq2 _), fsUpd_other _ _ _ _ hq1]

theorem bakFiles_congr (n : Nat) (fs gs : WinFS)
    (h : ∀ d, 1 ≤ d → d ≤ n → fs (WPath.bak d) = gs (WPath.bak d)) :
    bakFiles n fs = bakFiles n gs := by
  induction n with
  | zero => rfl
  | succ n ih =>
    rw [bakFiles_succ, bakFiles_succ,
      ih (fun d h1 h2 => h d h1 (by omega)),
      h (n + 1) (by omega) (Nat.le_refl _)]

theorem renameAsideCorrupt_bakFiles (n : Nat) (fs : WinFS) :
    bakFiles n (renameAsideCorrupt fs) = bakFiles n fs :=
  bakFiles_congr n _ _ fun d h1 h2 =>
    renameAsideCorrupt_other fs (WPath.bak d) (by simp) (by simp)

theorem bakFiles_of_getElem (n : Nat) (fs : WinFS) (L : List WFile)
    (h : ∀ d, 1 ≤ d → d ≤ n → fs (WPath.bak d) = L[d]?)
    (hlen : L.length ≤ n) : bakFiles n fs = L.tail := by
  have key : ∀ m, m ≤ n → bakFiles m fs = (L.drop 1).take m := by
    intro m
    induction m with
    | zero => intro hm; rfl
    | succ m ih =>
      intro hm
      rw [bakFiles_succ, ih (by omega), h (m + 1) (by omega) hm,
        List.take_succ, List.getElem?_drop]
      rw [show 1 + m = m + 1 from by omega]
  rw [key n (Nat.le_refl _), List.drop_one,
    List.take_of_length_le (by rw [List.length_tail]; omega)]

/-- Summary of `RestoreBackup`: with `L` the existing backups in slot
order, the call succeeds exactly when `L` is nonempty, the live slot
afterwards holds the first backup (when one exists), and the backup
chain afterwards is `L.tail`. -/
theorem restoreBackup_spec (n : Nat) (fs : WinFS) :
    (restoreBackup n fs).2 = !(bakFiles n fs).isEmpty ∧
    ((bakFiles n fs) ≠ [] →
      (restoreBackup n fs).1 WPath.live = (bakFiles n fs).head?) ∧
    bakFiles n (restoreBackup n fs).1 = (bakFiles n fs).tail := by
  obtain ⟨h1, h2, h3, h4, h5, h6, h7⟩ :=
    restoreLoop_spec (renameAsideCorrupt fs) n
  have hB := renameAsideCorrupt_bakFiles n fs
  refine ⟨by rw [restoreBackup, h2, hB], ?_, ?_⟩
  · intro hne
    rw [restoreBackup]
    dsimp only
    rw [h3, hB]
    cases hbf : bakFiles n fs with
    | nil => exact absurd hbf hne
    | cons a tl => rfl
  · rw [restoreBackup]
    dsimp only
    refine bakFiles_of_getElem n _ (bakFiles n fs) ?_
      (bakFiles_length_le n fs)
    intro d hd1 hd2
    rw [h4 d hd1 hd2, hB]

theorem restoreBackup_decrease (n : Nat) (fs : WinFS)
    (h : (restoreBackup n fs).2 = true) :
    bakCount n (restoreBackup n fs).1 < bakCount n fs := by
  obtain ⟨h1, h2, h3⟩ := restoreBackup_spec n fs
  rw [h] at h1
  have hne : bakFiles n fs ≠ [] := by
    intro he
    rw [he] at h1
    simp at h1
  rw [bakCount, bakCount, h3, List.length_tail]
  have := List.length_pos.mpr hne
  omega

/-- The engine's generic save existence check
(`FGenericSaveGameSystem::DoesSaveGameExistWithResult`), modelled from
the spec: reports whether the live save is absent, present, or corrupt;
corruption of the stored bytes is abstracted by the predicate `P`. -/
def genericExists (P : List Nat → Bool) (fs : WinFS) : ESaveExistsResult :=
  match fs WPath.live with
  | none => .DoesNotExist
  | some f => if P f.data then .Corrupt else .OK

/-- The retry loop of
`FWindowsSaveGameSystem::DoesSaveGameExistWithResult`: while the save is
corrupt and `RestoreBackup` succeeds, flag the restore and check again;
otherwise stop with the current result and flag. -/
def existsLoop (P : List Nat → Bool) (n : Nat) (fs : WinFS) (flag : Bool) :
    WinFS × ESaveExistsResult × Bool :=
  if genericExists P fs = ESaveExistsResult.Corrupt then
    match hr : restoreBackup n fs with
    | (fs2, true) => existsLoop P n fs2 true
    | (fs2, false) => (fs2, ESaveExistsResult.Corrupt, flag)
  else (fs, genericExists P fs, flag)
termination_by bakCount n fs
decreasing_by
  have hd := restoreBackup_decrease n fs (by rw [hr])
  rw [hr] at hd
  exact hd

/-- `FWindowsSaveGameSystem::DoesSaveGameExistWithResult` (the final
`bRestoredFromBackup && Result == OK` fix-up in the source only
re-assigns `true` to an already-true flag, so it is a no-op). -/
def doesSaveGameExistWithResult (P : List Nat → Bool) (n : Nat)
    (fs : WinFS) : WinFS × ESaveExistsResult × Bool :=
  existsLoop P n fs false

/-- `UPersistenceManager::DoesSaveGameExist`: maps the backend result
onto `EPersistenceHasResult`, reporting `Restored` for a save that was
replaced by a backup; the returned `Bool` is the function result. -/
def doesSaveGameExist (P : List Nat → Bool) (n : Nat) (fs : WinFS) :
    WinFS × Bool × EPersistenceHasResult :=
  let r := doesSaveGameExistWithResult P n fs
  match r.2.1 with
  | .OK => (r.1, true, if r.2.2 then .Restored else .Exists)
  | .DoesNotExist => (r.1, false, .Empty)
  | .Corrupt => (r.1, false, .Corrupt)
  | .UnspecifiedError => (r.1, false, .Unknown)

/-- The retry loop of `UPersistenceManager::LoadSaveGame`: load the live
file, validate it (`VerifySaveIntegrity`, abstracted by the corruption
predicate `P`), and while the result is corrupt and a backup restore
succeeds, try again; `Restored` is reported when a restore happened. -/
def loadLoop (P : List Nat → Bool) (n : Nat) (fs : WinFS) (flag : Bool) :
    WinFS × List Nat × EPersistenceLoadResult :=
  let res : EPersistenceLoadResult × List Nat :=
    match fs WPath.live with
    | none => (.Unknown, [])
    | some f =>
      if P f.data then (.Corrupt, f.data)
      else (if flag then .Restored else .Success, f.data)
  if res.1 = EPersistenceLoadResult.Corrupt then
    match hr : restoreBackup n fs with
    | (fs2, true) => loadLoop P n fs2 true
    | (fs2, false) => (fs2, res.2, res.1)
  else (fs, res.2, res.1)
termination_by bakCount n fs
decreasing_by
  have hd := restoreBackup_decrease n fs (by rw [hr])
  rw [hr] at hd
  exact hd

/-- `UPersistenceManager::LoadSaveGame`. -/
def loadSaveGame (P : List Nat → Bool) (n : Nat) (fs : WinFS) :
    WinFS × List Nat × EPersistenceLoadResult :=
  loadLoop P n fs false

theorem existsLoop_step (P : List Nat → Bool) (n : Nat) (fs : WinFS)
    (flag : Bool) (hge : genericExists P fs = ESaveExistsResult.Corrupt)
    (hres : (restoreBackup n fs).2 = true) :
    existsLoop P n fs flag = existsLoop P n (restoreBackup n fs).1 true := by
  rw [existsLoop, if_pos hge]
  split
  · rename_i fs2 heq
    rw [heq]
  · rename_i fs2 heq
    rw [heq] at hres
    simp at hres

theorem existsLoop_stop_corrupt (P : List Nat → Bool) (n : Nat)
    (fs : WinFS) (flag : Bool)
    (hge : genericExists P fs = ESaveExistsResult.Corrupt)
    (hres : (restoreBackup n fs).2 = false) :
    (existsLoop P n fs flag).2.1 = ESaveExistsResult.Corrupt := by
  rw [existsLoop, if_pos hge]
  split
  · rename_i fs2 heq
    rw [heq] at hres
    simp at hres
  · rfl

theorem existsLoop_stop_ok (P : List Nat → Bool) (n : Nat) (fs : WinFS)
    (flag : Bool) (hge : ¬ genericExists P fs = ESaveExistsResult.Corrupt) :
    existsLoop P n fs flag = (fs, genericExists P fs, flag) := by
  rw [existsLoop, if_neg hge]

theorem genericExists_corrupt (P : List Nat → Bool) (fs : WinFS)
    (f : WFile) (hlive : fs WPath.live = some f)
    (hcor : P f.data = true) :
    genericExists P fs = ESaveExistsResult.Corrupt := by
  unfold genericExists
  rw [hlive]
  dsimp only
  rw [if_pos hcor]

/-- The existence-check loop ends with `OK` and the restored flag set
when the live save is corrupt but some valid backup exists: the
promoted save is the first non-corrupt backup in the chain. -/
theorem existsLoop_restored (P : List Nat → Bool) (n : Nat) :
    ∀ (k : Nat) (fs : WinFS) (flag : Bool) (f : WFile),
      bakCount n fs ≤ k →
      fs WPath.live = some f → P f.data = true →
      (∃ g ∈ bakFiles n fs, P g.data = false) →
      ∃ g, (bakFiles n fs).find? (fun x => !(P x.data)) = some g ∧
        ∃ fs2, existsLoop P n fs flag = (fs2, ESaveExistsResult.OK, true) ∧
          fs2 WPath.live = some g := by
  intro k
  induction k with
  | zero =>
    intro fs flag f hk hlive hcor hex
    obtain ⟨g, hg, _⟩ := hex
    have hpos := List.length_pos.mpr (List.ne_nil_of_mem hg)
    rw [bakCount] at hk
    omega
  | succ k ih =>
    intro fs flag f hk hlive hcor hex
    have hge := genericExists_corrupt P fs f hlive hcor
    obtain ⟨hs1, hs2, hs3⟩ := restoreBackup_spec n fs
    have hLne : bakFiles n fs ≠ [] := by
      obtain ⟨g, hg, _⟩ := hex
      exact List.ne_nil_of_mem hg
    cases hbf : bakFiles n fs with
    | nil => exact absurd hbf hLne
    | cons a tl =>
      have hres2 : (restoreBackup n fs).2 = true := by
        rw [hs1, hbf]
        rfl
      have hstep := existsLoop_step P n fs flag hge hres2
      have hlive2 : (restoreBackup n fs).1 WPath.live = some a := by
        rw [hs2 hLne, hbf]
        rfl
      have hbaks2 : bakFiles n (restoreBackup n fs).1 = tl := by
        rw [hs3, hbf]
        rfl
      by_cases ha : P a.data = true
      · -- the promoted backup is itself corrupt: keep looping
        obtain ⟨g, hg, hgval⟩ := hex
        have hgtl : g ∈ tl := by
          rw [hbf] at hg
          cases List.mem_cons.mp hg with
          | inl h =>
            rw [h, ha] at hgval
            simp at hgval
          | inr h => exact h
        have hk2 : bakCount n (restoreBackup n fs).1 ≤ k := by
          have h1 : bakCount n fs ≤ k + 1 := hk
          rw [bakCount, hbf, List.length_cons] at h1
          rw [bakCount, hbaks2]
          omega
        obtain ⟨g2, hfind, fs3, heq3, hlive3⟩ :=
          ih (restoreBackup n fs).1 true a hk2 hlive2 ha
            ⟨g, by rw [hbaks2]; exact hgtl, hgval⟩
        refine ⟨g2, ?_, fs3, ?_, hlive3⟩
        · rw [List.find?_cons_of_neg _ (by simp [ha])]
          rw [hbaks2] at hfind
          exact hfind
        · rw [hstep, heq3]
      · -- the promoted backup is valid: the recheck reports OK
        have hge2 : genericExists P (restoreBackup n fs).1 =
            ESaveExistsResult.OK := by
          unfold genericExists
          rw [hlive2]
          dsimp only
          rw [if_neg ha]
        have hfin := existsLoop_stop_ok P n (restoreBackup n fs).1 true
          (by rw [hge2]; simp)
        refine ⟨a, ?_, (restoreBackup n fs).1, ?_, hlive2⟩
        · rw [List.find?_cons_of_pos _ (by simp [ha])]
        · rw [hstep, hfin, hge2]

/-- The existence-check loop ends with `Corrupt` when the live save and
every backup are corrupt. -/
theorem existsLoop_corrupt (P : List Nat → Bool) (n : Nat) :
    ∀ (k : Nat) (fs : WinFS) (flag : Bool) (f : WFile),
      bakCount n fs ≤ k →
      fs WPath.live = some f → P f.data = true →
      (∀ g ∈ bakFiles n fs, P g.data = true) →
      (existsLoop P n fs flag).2.1 = ESaveExistsResult.Corrupt := by
  intro k
  induction k with
  | zero =>
    intro fs flag f hk hlive hcor hall
    have hge := genericExists_corrupt P fs f hlive hcor
    have hL : bakFiles n fs = [] := by
      rw [bakCount] at hk
      exact List.eq_nil_of_length_eq_zero (by omega)
    have hres2 : (restoreBackup n fs).2 = false := by
      obtain ⟨hs1, _, _⟩ := restoreBackup_spec n fs
      rw [hs1, hL]
      rfl
    exact existsLoop_stop_corrupt P n fs flag hge hres2
  | succ k ih =>
    intro fs flag f hk hlive hcor hall
    have hge := genericExists_corrupt P fs f hlive hcor
    obtain ⟨hs1, hs2, hs3⟩ := restoreBackup_spec n fs
    cases hbf : bakFiles n fs with
    | nil =>
      have hres2 : (restoreBackup n fs).2 = false := by
        rw [hs1, hbf]
        rfl
      exact existsLoop_stop_corrupt P n fs flag hge hres2
    | cons a tl =>
      have hres2 : (restoreBackup n fs).2 = true := by
        rw [hs1, hbf]
        rfl
      have hstep := existsLoop_step P n fs flag hge hres2
      have hlive2 : (restoreBackup n fs).1 WPath.live = some a := by
        rw [hs2 (by rw [hbf]; simp), hbf]
        rfl
      have hbaks2 : bakFiles n (restoreBackup n fs).1 = tl := by
        rw [hs3, hbf]
        rfl
      have ha : P a.data = true := hall a (by rw [hbf]; simp)
      have hk2 : bakCount n (restoreBackup n fs).1 ≤ k := by
        have h1 : bakCount n fs ≤ k + 1 := hk
        rw [bakCount, hbf, List.length_cons] at h1
        rw [bakCount, hbaks2]
        omega
      have hall2 : ∀ g ∈ bakFiles n (restoreBackup n fs).1,
          P g.data = true := by
        intro g hg
        rw [hbaks2] at hg
        exact hall g (by rw [hbf]; exact List.mem_cons_of_mem a hg)
      rw [hstep]
      exact ih (restoreBackup n fs).1 true a hk2 hlive2 ha hall2

/-- Claim C7: for a slot whose live save file is corrupt, the existence
check loops restoring backups: if at least one valid backup exists it
terminates reporting `OK` with the restored flag set — the manager maps
this to `EPersistenceHasResult.Restored` — the live file then holds the
first valid backup of the chain, and a subsequent load of the slot
succeeds on that restored content; only when every backup is corrupt is
`Corrupt` reported. -/
theorem c7_corrupt_save_restored (P : List Nat → Bool) (n : Nat)
    (fs : WinFS) (f : WFile)
    (hlive : fs WPath.live = some f) (hcor : P f.data = true) :
    ((∃ g ∈ bakFiles n fs, P g.data = false) →
      ∃ g, (bakFiles n fs).find? (fun x => !(P x.data)) = some g ∧
        ∃ fs2, doesSaveGameExistWithResult P n fs =
            (fs2, ESaveExistsResult.OK, true) ∧
          fs2 WPath.live = some g ∧
          doesSaveGameExist P n fs =
            (fs2, true, EPersistenceHasResult.Restored) ∧
          loadSaveGame P n fs2 =
            (fs2, g.data, EPersistenceLoadResult.Success)) ∧
    ((∀ g ∈ bakFiles n fs, P g.data = true) →
      (doesSaveGameExistWithResult P n fs).2.1 =
        ESaveExistsResult.Corrupt ∧
      (doesSaveGameExist P n fs).2.2 = EPersistenceHasResult.Corrupt) := by
  constructor
  · intro hex
    obtain ⟨g, hfind, fs2, heq, hlive2⟩ :=
      existsLoop_restored P n (bakCount n fs) fs false f (Nat.le_refl _)
        hlive hcor hex
    have hvalid : P g.data = false := by
      have := List.find?_some hfind
      simpa using this
    refine ⟨g, hfind, fs2, heq, hlive2, ?_, ?_⟩
    · unfold doesSaveGameExist doesSaveGameExistWithResult
      rw [heq]
      rfl
    · unfold loadSaveGame loadLoop
      rw [hlive2]
      simp [hvalid]
  · intro hall
    have h1 := existsLoop_corrupt P n (bakCount n fs) fs false f
      (Nat.le_refl _) hlive hcor hall
    refine ⟨h1, ?_⟩
    rcases hEL : existsLoop P n fs false with ⟨fs2, r, b⟩
    rw [hEL] at h1
    simp only at h1
    subst h1
    unfold doesSaveGameExist doesSaveGameExistWithResult
    rw [hEL]

/-- Corruption predicate for the C7 witness: a file is corrupt when its
first byte is 9. -/
def c7P (d : List Nat) : Bool := d.headD 0 == 9

/-- Concrete slot state for the C7 witness: corrupt live file, corrupt
first backup, valid second backup. -/
def c7FS : WinFS := fun p =>
  match p with
  | WPath.live => some ⟨[9], 5⟩
  | WPath.bak 1 => some ⟨[9, 9], 3⟩
  | WPath.bak 2 => some ⟨[1, 2], 1⟩
  | _ => none

/-! ## Claim C9: container packed/unpacked states

State of a `UPersistenceContainer` tracked by the model: the raw blob
(`Blob.Data`), the in-memory per-actor index (`Header.Info`) and the
destroyed-actor set (`Header.Destroyed`).  The key, load state and the
custom-version / name caches do not enter the `IsPacked` / `IsUnpacked`
predicates and are not tracked. -/

/-- `FGuid`: four `uint32` fields, serialized as four little-endian
32-bit values (engine type). -/
structure FGuid where
  a : Nat
  b : Nat
  c : Nat
  d : Nat
deriving DecidableEq, Repr

/-- `UPersistenceContainer::FInfo`: index entry for one actor's data. -/
structure FInfo where
  uniqueId : FGuid
  offset : Nat
  length : Nat
deriving DecidableEq, Repr

/-- The tracked state of a `UPersistenceContainer`. -/
structure CState where
  blob : List Nat
  info : List FInfo
  destroyed : List FGuid
deriving DecidableEq, Repr

/-- A registered persistence component as `UPersistenceContainer::WriteData`
sees it: its persistent id, the bytes the per-component `WriteData`
overload produces for it (opaque here), the `IsDynamic` flag, and the
bytes of its dynamic-spawn record after the id (transform and class
path, engine-serialized, opaque here). -/
structure CComp where
  uniqueId : FGuid
  payload : List Nat
  isDynamic : Bool
  dynExtra : List Nat
deriving DecidableEq, Repr

/-- `FGuid` serialization: four little-endian `uint32`s. -/
def serGuid (g : FGuid) : List Nat :=
  le32 g.a ++ (le32 g.b ++ (le32 g.c ++ le32 g.d))

/-- One `FInfo` record as written by `FHeader::SerializeVariable`. -/
def serInfo (i : FInfo) : List Nat :=
  serGuid i.uniqueId ++ (le32 i.offset ++ le32 i.length)

def serInfos : List FInfo → List Nat
  | [] => []
  | i :: t => serInfo i ++ serInfos t

def serGuids : List FGuid → List Nat
  | [] => []
  | g :: t => serGuid g ++ serGuids t

/-- `FHeader::SerializeVariable` (saving): the info count and records,
then the destroyed count and ids.  The custom-version container and
name cache that follow are engine-serialized after the fields tracked
here and are read back positionally after them, so they are omitted. -/
def serializeVariable (info : List FInfo) (destroyed : List FGuid) :
    List Nat :=
  le32 info.length ++
    (serInfos info ++ (le32 destroyed.length ++ serGuids destroyed))

/-- `UPersistenceContainer::IsPacked`:
`Header.IsPacked() && Blob.Data.Num() > 0`, with `FHeader::IsPacked` =
`Info.Num() == 0 && Destroyed.Num() == 0`. -/
def cIsPacked (s : CState) : Bool :=
  s.info.isEmpty && s.destroyed.isEmpty && !s.blob.isEmpty

/-- `UPersistenceContainer::IsUnpacked` = `FHeader::IsUnpacked` =
`Info.Num() != 0 || Destroyed.Num() != 0`. -/
def cIsUnpacked (s : CState) : Bool :=
  !s.info.isEmpty || !s.destroyed.isEmpty

/-- `UPersistenceContainer::Pack`: `Header.Reset()` clears the index and
the destroyed set; the blob is untouched. -/
def cPack (s : CState) : CState :=
  { s with info := [], destroyed := [] }

/-- Reading an `FGuid` at the head of the stream. -/
def parseGuid (l : List Nat) : FGuid :=
  ⟨u32At l 0, u32At l 4, u32At l 8, u32At l 12⟩

/-- Reading `count` `FInfo` records (`FHeader::SerializeVariable`,
loading); returns the records and the remaining stream. -/
def parseInfos : Nat → List Nat → List FInfo × List Nat
  | 0, l => ([], l)
  | n + 1, l =>
    (⟨parseGuid l, u32At l 16, u32At l 20⟩ :: (parseInfos n (l.drop 24)).1,
      (parseInfos n (l.drop 24)).2)

/-- Reading `count` destroyed-actor ids. -/
def parseGuids : Nat → List Nat → List FGuid × List Nat
  | 0, l => ([], l)
  | n + 1, l =>
    (parseGuid l :: (parseGuids n (l.drop 16)).1,
      (parseGuids n (l.drop 16)).2)

/-- `UPersistenceContainer::Unpack`: `Header.Reset()`, then when the
blob is non-empty `FHeader::Serialize` (loading) reads the fixed fields
(version, the two UE version fields, dynamic offset, index offset — 20
bytes, the index offset at byte 16), seeks to the index offset, and
`SerializeVariable` reads the info records and destroyed ids back.
Out-of-range reads yield zeroes (`FMemoryReader` raises its error flag
and leaves values zeroed). -/
def cUnpack (s : CState) : CState :=
  if s.blob.isEmpty then { s with info := [], destroyed := [] }
  else
    let v := s.blob.drop (u32At s.blob 16)
    let pi := parseInfos (u32At v 0) (v.drop 4)
    let pd := parseGuids (u32At pi.2 0) (pi.2.drop 4)
    { s with info := pi.1, destroyed := pd.1 }

/-- `UPersistenceContainer::SetDestroyed`: appends the component's id to
the destroyed set. -/
def cSetDestroyed (g : FGuid) (s : CState) : CState :=
  { s with destroyed := s.destroyed ++ [g] }

/-- Outcome of `UPersistenceContainer::LoadData` (a `const` method — it
changes no container state). -/
inductive CLoadOutcome
  | readData (bytes : List Nat)
  | destroyActor
  | noData
deriving DecidableEq, Repr

/-- `UPersistenceContainer::LoadData`: find the component's index entry
and read its slice of the blob, else destroy the actor if its id is in
the destroyed set. -/
def cLoadData (g : FGuid) (s : CState) : CLoadOutcome :=
  match s.info.find? (fun i => i.uniqueId == g) with
  | some i => .readData ((s.blob.drop i.offset).take i.length)
  | none => if s.destroyed.contains g then .destroyActor else .noData

/-- The live components of the registered array (`Component.Get()`
non-null); stale weak pointers are skipped. -/
def liveOf (cs : List (Option CComp)) : List CComp :=
  cs.filterMap id

/-- The per-actor data section written by the `WriteData` loop. -/
def bodyOf (cs : List (Option CComp)) : List Nat :=
  ((liveOf cs).map (fun c => c.payload)).flatten

/-- The dynamic-actor record for one live component: its id followed by
the engine-serialized transform and class path. -/
def dynRecord (c : CComp) : List Nat :=
  if c.isDynamic then serGuid c.uniqueId ++ c.dynExtra else []

/-- The dynamic-actor section: the dynamic count, then one record per
live dynamic component. -/
def dynSecOf (cs : List (Option CComp)) : List Nat :=
  le32 ((liveOf cs).filter (fun c => c.isDynamic)).length ++
    ((liveOf cs).map dynRecord).flatten

/-- `Header.DynamicOffset`: bytes written when the dynamic section
starts — the 20-byte header stub plus the data section. -/
def dynOffOf (cs : List (Option CComp)) : Nat :=
  20 + (bodyOf cs).length

/-- `Header.IndexOffset`: bytes written when `SerializeVariable`
starts. -/
def idxOffOf (cs : List (Option CComp)) : Nat :=
  dynOffOf cs + (dynSecOf cs).length

/-- The index built by the `WriteData` loop: one entry per live
component; offset = bytes written so far (`Ar.Tell()` cast to `uint32`),
length = that component's payload size (cast to `uint32`); the header
stub occupies the first 20 bytes. -/
def buildInfos : Nat → List CComp → List FInfo
  | _, [] => []
  | off, c :: t =>
    ⟨c.uniqueId, off % 2 ^ 32, c.payload.length % 2 ^ 32⟩ ::
      buildInfos (off + c.payload.length) t

/-- `Header.Info` after `WriteData`. -/
def infoOf (cs : List (Option CComp)) : List FInfo :=
  buildInfos 20 (liveOf cs)

/-- `UPersistenceContainer::WriteData`: reset the blob and the header,
write the fixed header (re-written at the end with the final offsets),
every live component's payload, the dynamic-actor section and the
variable header data; stale weak pointers are skipped everywhere.  The
in-memory header keeps the rebuilt index; the destroyed set stays as
`Header.Reset()` left it — empty.  `CONTAINER_VERSION` is 1; `uev` is
the `GPackageFileUEVersion` pair. -/
def cWriteData (uev : Nat × Nat) (cs : List (Option CComp)) : CState :=
  { blob :=
      (le32 1 ++
          (le32 uev.1 ++
            (le32 uev.2 ++ (le32 (dynOffOf cs) ++ le32 (idxOffOf cs)))) ++
        bodyOf cs ++ dynSecOf cs) ++ serializeVariable (infoOf cs) [],
    info := infoOf cs,
    destroyed := [] }

/-- Container states reachable through the container API: a container
starts with an empty header and whatever blob was deserialized for it
(`Blob` is its only `SaveGame` property; a freshly created container
has an empty blob), and evolves by `Pack`, `Unpack`, `WriteData` and
`SetDestroyed` (`LoadData` is `const`). -/
inductive CReach : CState → Prop
  | start (blob : List Nat) : CReach ⟨blob, [], []⟩
  | pack {s : CState} : CReach s → CReach (cPack s)
  | unpack {s : CState} : CReach s → CReach (cUnpack s)
  | writeData {s : CState} (uev : Nat × Nat) (cs : List (Option CComp)) :
      CReach s → CReach (cWriteData uev cs)
  | setDestroyed {s : CState} (g : FGuid) :
      CReach s → CReach (cSetDestroyed g s)

/-- Well-formedness of an index entry: every serialized field fits in
32 bits, so it survives the `uint32` round trip. -/
def infoWF (i : FInfo) : Prop :=
  i.uniqueId.a < 2 ^ 32 ∧ i.uniqueId.b < 2 ^ 32 ∧ i.uniqueId.c < 2 ^ 32 ∧
    i.uniqueId.d < 2 ^ 32 ∧ i.offset < 2 ^ 32 ∧ i.length < 2 ^ 32

instance (i : FInfo) : Decidable (infoWF i) := by
  unfold infoWF
  exact inferInstance

/-- Witness for C7 at a concrete slot state. -/
theorem c7_corrupt_save_restored_witness :
    ∃ g, (bakFiles 3 c7FS).find? (fun x => !(c7P x.data)) = some g ∧
      ∃ fs2, doesSaveGameExistWithResult c7P 3 c7FS =
          (fs2, ESaveExistsResult.OK, true) ∧
        fs2 WPath.live = some g ∧
        doesSaveGameExist c7P 3 c7FS =
          (fs2, true, EPersistenceHasResult.Restored) ∧
        loadSaveGame c7P 3 fs2 =
          (fs2, g.data, EPersistenceLoadResult.Success) :=
  (c7_corrupt_save_restored c7P 3 c7FS ⟨[9], 5⟩ rfl rfl).1
    ⟨⟨[1, 2], 1⟩, by decide, by decide⟩

theorem u32At_drop (l : List Nat) (a b : Nat) :
    u32At (l.drop a) b = u32At l (a + b) := by
  simp only [u32At, List.getD_eq_getElem?_getD, List.getElem?_drop,
    Nat.add_assoc]

theorem drop4_le32 (n : Nat) (l : List Nat) : (le32 n ++ l).drop 4 = l := by
  rw [show (4 : Nat) = (le32 n).length from rfl, List.drop_left]

theorem drop16_serGuid (g : FGuid) (l : List Nat) :
    (serGuid g ++ l).drop 16 = l :=
  List.drop_left' (by simp [serGuid, le32])

theorem u32At12_le32 (a b c : Nat) (l : List Nat) :
    u32At (le32 a ++ (le32 b ++ (le32 c ++ l))) 12 = u32At l 0 := by
  rw [show (12 : Nat) = 4 + 8 from rfl, u32At_le32_skip, u32At_twole32_8]

theorem u32At16_le32 (a b c d : Nat) (l : List Nat) :
    u32At (le32 a ++ (le32 b ++ (le32 c ++ (le32 d ++ l)))) 16 =
      u32At l 0 := by
  rw [show (16 : Nat) = 4 + 12 from rfl, u32At_le32_skip, u32At12_le32]

theorem parseGuid_serGuid (g : FGuid) (l : List Nat) :
    parseGuid (serGuid g ++ l) =
      ⟨g.a % 2 ^ 32, g.b % 2 ^ 32, g.c % 2 ^ 32, g.d % 2 ^ 32⟩ := by
  unfold parseGuid serGuid
  simp only [List.append_assoc]
  rw [u32At_le32_append, u32At_twole32_4, u32At_twole32_8, u32At_le32_append,
    u32At12_le32, u32At_le32_append]

theorem u32At16_serInfo (g : FGuid) (m n : Nat) (l : List Nat) :
    u32At (serGuid g ++ (le32 m ++ (le32 n ++ l))) 16 = m % 2 ^ 32 := by
  have h : u32At ((serGuid g ++ (le32 m ++ (le32 n ++ l))).drop 16) 0 =
      u32At (serGuid g ++ (le32 m ++ (le32 n ++ l))) 16 := by
    rw [u32At_drop]
  rw [← h, drop16_serGuid, u32At_le32_append]

theorem u32At20_serInfo (g : FGuid) (m n : Nat) (l : List Nat) :
    u32At (serGuid g ++ (le32 m ++ (le32 n ++ l))) 20 = n % 2 ^ 32 := by
  have h :
      u32At (((serGuid g ++ (le32 m ++ (le32 n ++ l))).drop 16).drop 4) 0 =
        u32At (serGuid g ++ (le32 m ++ (le32 n ++ l))) 20 := by
    rw [u32At_drop, u32At_drop]
  rw [← h, drop16_serGuid, drop4_le32, u32At_le32_append]

theorem drop24_serInfo (g : FGuid) (m n : Nat) (l : List Nat) :
    (serGuid g ++ (le32 m ++ (le32 n ++ l))).drop 24 = l := by
  have h :
      (((serGuid g ++ (le32 m ++ (le32 n ++ l))).drop 16).drop 4).drop 4 =
        (serGuid g ++ (le32 m ++ (le32 n ++ l))).drop 24 := by
    rw [List.drop_drop, List.drop_drop]
  rw [← h, drop16_serGuid, drop4_le32, drop4_le32]

/-- A serialized index round-trips through `SerializeVariable` when
every field fits in 32 bits. -/
theorem parseInfos_serInfos (infos : List FInfo) :
    ∀ (rest : List Nat), (∀ i ∈ infos, infoWF i) →
      parseInfos infos.length (serInfos infos ++ rest) = (infos, rest) := by
  induction infos with
  | nil => intro rest _; rfl
  | cons i t ih =>
    intro rest h
    have hwf := h i (List.mem_cons_self i t)
    unfold infoWF at hwf
    obtain ⟨h1, h2, h3, h4, h5, h6⟩ := hwf
    simp only [List.length_cons, serInfos, serInfo, List.append_assoc]
    simp only [parseInfos]
    rw [drop24_serInfo, ih rest (fun j hj => h j (List.mem_cons_of_mem i hj))]
    dsimp only
    rw [parseGuid_serGuid, u32At16_serInfo, u32At20_serInfo,
      Nat.mod_eq_of_lt h1, Nat.mod_eq_of_lt h2, Nat.mod_eq_of_lt h3,
      Nat.mod_eq_of_lt h4, Nat.mod_eq_of_lt h5, Nat.mod_eq_of_lt h6]

/-- Unpacking a blob laid out the way `WriteData` lays it out recovers
exactly the serialized index and an empty destroyed set. -/
theorem cUnpack_written (u0 u1 u2 d idx : Nat) (body dynSec : List Nat)
    (I : List FInfo) (s0 : CState)
    (hblob : s0.blob =
      (le32 u0 ++ (le32 u1 ++ (le32 u2 ++ (le32 d ++ le32 idx))) ++ body ++
          dynSec) ++ serializeVariable I [])
    (hidx : idx = 20 + body.length + dynSec.length)
    (hI : ∀ i ∈ I, infoWF i) (hn : I.length < 2 ^ 32)
    (hix : idx < 2 ^ 32) :
    cUnpack s0 = { s0 with info := I, destroyed := [] } := by
  have hne : s0.blob.isEmpty = false := by
    rw [hblob]
    simp [le32]
  have h16 : u32At s0.blob 16 = idx := by
    rw [hblob]
    simp only [List.append_assoc]
    rw [u32At16_le32, u32At_le32_append, Nat.mod_eq_of_lt hix]
  have hP :
      (le32 u0 ++ (le32 u1 ++ (le32 u2 ++ (le32 d ++ le32 idx))) ++ body ++
        dynSec).length = idx := by
    simp [le32]
    omega
  have hdrop : s0.blob.drop idx = serializeVariable I [] := by
    rw [hblob]
    exact List.drop_left' hP
  have hcount : u32At (serializeVariable I []) 0 = I.length := by
    unfold serializeVariable
    rw [u32At_le32_append, Nat.mod_eq_of_lt hn]
  have hv4 :
      (serializeVariable I []).drop 4 =
        serInfos I ++ (le32 0 ++ serGuids []) := by
    unfold serializeVariable
    rw [drop4_le32]
    rfl
  have hparse := parseInfos_serInfos I (le32 0 ++ serGuids []) hI
  unfold cUnpack
  rw [if_neg (by rw [hne]; simp)]
  dsimp only
  rw [h16, hdrop, hcount, hv4, hparse]
  dsimp only
  rw [u32At_le32_append, Nat.zero_mod]
  simp only [parseGuids]

/-- The bytes before the variable header section: exactly
`IndexOffset` many. -/
theorem blob_length_eq (uev : Nat × Nat) (cs : List (Option CComp)) :
    (cWriteData uev cs).blob.length =
      idxOffOf cs + (serializeVariable (infoOf cs) []).length := by
  unfold cWriteData
  dsimp only
  rw [List.length_append]
  congr 1
  simp [le32, idxOffOf, dynOffOf]
  omega

/-- Claim C9: `IsPacked` and `IsUnpacked` are never simultaneously true;
every container state is packed, unpacked, or entirely empty (empty
blob, empty index, empty destroyed set — the state of a freshly created
container, which is neither packed nor unpacked); and `Unpack` after
`Pack` of a `WriteData` result recovers exactly the index and destroyed
set that `WriteData` left in memory, so the parsed index always matches
the blob it was parsed from. -/
theorem c9_pack_unpack_dichotomy :
    (∀ s : CState, ¬(cIsPacked s = true ∧ cIsUnpacked s = true)) ∧
    (∀ s : CState, cIsPacked s = true ∨ cIsUnpacked s = true ∨
      (s.blob = [] ∧ s.info = [] ∧ s.destroyed = [])) ∧
    (∀ (uev : Nat × Nat) (cs : List (Option CComp)),
      (∀ i ∈ infoOf cs, infoWF i) →
      (infoOf cs).length < 2 ^ 32 →
      (cWriteData uev cs).blob.length < 2 ^ 32 →
      cUnpack (cPack (cWriteData uev cs)) = cWriteData uev cs) := by
  refine ⟨?_, ?_, ?_⟩
  · intro s h
    obtain ⟨hp, hu⟩ := h
    simp only [cIsPacked, cIsUnpacked, Bool.and_eq_true, Bool.or_eq_true,
      Bool.not_eq_true', List.isEmpty_iff, List.isEmpty_eq_false] at hp hu
    rcases hu with h | h
    · exact h hp.1.1
    · exact h hp.1.2
  · intro s
    by_cases hi : s.info = []
    · by_cases hd : s.destroyed = []
      · by_cases hbl : s.blob = []
        · exact Or.inr (Or.inr ⟨hbl, hi, hd⟩)
        · exact Or.inl (by simp [cIsPacked, hi, hd, hbl])
      · exact Or.inr (Or.inl (by simp [cIsUnpacked, hd]))
    · exact Or.inr (Or.inl (by simp [cIsUnpacked, hi]))
  · intro uev cs hI hn hb
    have hix : idxOffOf cs < 2 ^ 32 := by
      have hlen := blob_length_eq uev cs
      omega
    have hres := cUnpack_written 1 uev.1 uev.2 (dynOffOf cs) (idxOffOf cs)
      (bodyOf cs) (dynSecOf cs) (infoOf cs) (cPack (cWriteData uev cs))
      rfl rfl hI hn hix
    exact hres

/-- The original C9 wording fails on a fresh container: the state with
empty blob, index and destroyed set is reachable (it is the initial
state) yet neither packed nor unpacked. -/
theorem c9_claim_counterexample :
    CReach ⟨[], [], []⟩ ∧ cIsPacked ⟨[], [], []⟩ = false ∧
      cIsUnpacked ⟨[], [], []⟩ = false :=
  ⟨CReach.start [], rfl, rfl⟩

/-- Concrete component array for the C9 witness: one live static
component, one stale weak pointer, one live dynamic component. -/
def c9Comps : List (Option CComp) :=
  [some ⟨⟨1, 2, 3, 4⟩, [7, 7, 7], false, []⟩, none,
    some ⟨⟨5, 6, 7, 8⟩, [9], true, [1, 2, 3, 4, 5]⟩]

/-- Witness for C9 at a concrete component array and UE version. -/
theorem c9_pack_unpack_dichotomy_witness :
    cUnpack (cPack (cWriteData (1017, 0) c9Comps)) =
      cWriteData (1017, 0) c9Comps :=
  c9_pack_unpack_dichotomy.2.2 (1017, 0) c9Comps (by decide) (by decide)
    (by decide)

/-! ## The persistence manager (`UPersistenceManager`)

Commit-relevant state: the permanent session disable flag
(`bNeverCommit`), the ref-counted lock (`CommitLockObjects` plus the
derived `bDisableCommit`), the pending-save counter, the current slot,
the current world document's container list (`CurrentData->Containers`,
keyed by `FName`, modelled as `Nat`), and the registered-components map
(`RegisteredActors`: container name to array of weak component
pointers, `none` = stale).  The job queue, the serialized save buffers
and the user profile are outside the model; queueing a job is reported
in the commit outcome. -/

/-- `TArray::AddUnique`. -/
def addUnique (x : Nat) (l : List Nat) : List Nat :=
  if l.contains x then l else l ++ [x]

/-- `TArray<FName>`-keyed container lookup
(`UPersistenceManager::GetContainer` without creation): first container
whose key matches. -/
def lookupC (key : Nat) (cl : List (Nat × CState)) : Option CState :=
  (cl.find? (fun p => p.1 == key)).map (fun p => p.2)

/-- `UPersistenceContainer::HasDestroyed`: `Header.Destroyed.Num() > 0`. -/
def hasDestroyed (c : CState) : Bool := !c.destroyed.isEmpty

/-- `Container && Container->HasDestroyed()` for an optional container. -/
def hasDestroyedOpt : Option CState → Bool
  | none => false
  | some c => hasDestroyed c

/-- Writing a container back after `WriteData`: replace it if present
(`GetContainer(Name, false)` found it), otherwise create it at the end
of the list (`GetContainer(Name, true)`: `Containers.Emplace`). -/
def updateC (key : Nat) (c : CState) (cl : List (Nat × CState)) :
    List (Nat × CState) :=
  if (cl.find? (fun p => p.1 == key)).isSome then
    cl.map (fun p => if p.1 == key then (key, c) else p)
  else cl ++ [(key, c)]

/-- The removal loop of `UPersistenceManager::DeleteContainer`: scan the
container list from the end, remove the first match. -/
def deleteLast (key : Nat) : List (Nat × CState) → List (Nat × CState) × Bool
  | [] => ([], false)
  | p :: t =>
    let r := deleteLast key t
    if r.2 then (p :: r.1, true)
    else if p.1 == key then (t, true)
    else (p :: t, false)

/-- `UPersistenceManager::DeleteContainer` (with `BlockLoadedLevel`
false, as the commit path calls it): when a container with the key
exists, remove it and drop the key from the registered-components map;
otherwise change nothing and report failure. -/
def mDeleteContainer (key : Nat) (cl : List (Nat × CState))
    (reg : List (Nat × List (Option CComp))) :
    List (Nat × CState) × List (Nat × List (Option CComp)) × Bool :=
  let r := deleteLast key cl
  if r.2 then (r.1, reg.filter (fun p => !(p.1 == key)), true)
  else (cl, reg, false)

/-- The per-container write condition of `UPersistenceManager::CommitSave`:
`Components.Num() > 0 || (Container && Container->HasDestroyed())`.
`Components.Num()` counts the raw weak-pointer array, stale entries
included. -/
def writeCond (comps : List (Option CComp)) (cOpt : Option CState) : Bool :=
  decide (0 < comps.length) || hasDestroyedOpt cOpt

/-- The container loop of `UPersistenceManager::CommitSave`: for every
tracked name, either rewrite the container via `WriteData` (creating it
if missing) or record the name for deletion; returns the updated list
and the recorded names in iteration order. -/
def commitPhase (uev : Nat × Nat) :
    List (Nat × List (Option CComp)) → List (Nat × CState) →
      List (Nat × CState) × List Nat
  | [], cl => (cl, [])
  | (name, comps) :: t, cl =>
    if writeCond comps (lookupC name cl) then
      commitPhase uev t (updateC name (cWriteData uev comps) cl)
    else
      ((commitPhase uev t cl).1, name :: (commitPhase uev t cl).2)

/-- The deletion loop after the container loop: `DeleteContainer` for
every recorded empty container. -/
def deleteEmpties : List Nat → List (Nat × CState) →
    List (Nat × List (Option CComp)) →
      List (Nat × CState) × List (Nat × List (Option CComp))
  | [], cl, reg => (cl, reg)
  | n :: t, cl, reg =>
    deleteEmpties t (mDeleteContainer n cl reg).1
      (mDeleteContainer n cl reg).2.1

/-- How a `CommitSave` call ends on the calling thread: the callback is
executed immediately with a refusal result, or a commit job is queued
(the callback then fires later from `CommitSaveDone`). -/
inductive CommitOutcome where
  | refused (r : EPersistenceSaveResult)
  | queued
deriving DecidableEq, Repr

/-- Commit-relevant `UPersistenceManager` state. -/
structure MState where
  bNeverCommit : Bool
  bDisableCommit : Bool
  commitLockObjects : List Nat
  numSavesPending : Int
  currentSlot : Int
  currentData : Option (List (Nat × CState))
  registeredActors : List (Nat × List (Option CComp))
deriving DecidableEq, Repr

/-- `UPersistenceManager::SetDisableCommit`: no-op without a context
object; otherwise add or remove the caller from `CommitLockObjects`
(`AddUnique` / `Remove`) and recompute
`bDisableCommit = CommitLockObjects.Num() > 0`. -/
def setDisableCommit (disable : Bool) (ctx : Option Nat) (st : MState) :
    MState :=
  match ctx with
  | none => st
  | some c =>
    let locks :=
      if disable then addUnique c st.commitLockObjects
      else st.commitLockObjects.filter (fun x => !(x == c))
    { st with
      commitLockObjects := locks
      bDisableCommit := decide (0 < locks.length) }

/-- `UPersistenceManager::ClearAllCommitLocks`. -/
def clearAllCommitLocks (st : MState) : MState :=
  { st with commitLockObjects := [], bDisableCommit := false }

/-- `UPersistenceManager::CommitSave`: refuse with `Disabled` when the
session flag is set, a commit lock is held, or engine exit is requested
(checked in that order; the pending-save warning in between only logs);
otherwise increment the pending counter, fire the pre-save broadcast
(the returned `Bool`), run the container write loop and the
empty-container deletions on the current world document if there is
one, and queue the commit job.  Serializing the documents into the job
is outside the model. -/
def commitSave (uev : Nat × Nat) (engineExit : Bool) (st : MState) :
    MState × CommitOutcome × Bool :=
  if st.bNeverCommit then (st, .refused .Disabled, false)
  else if st.bDisableCommit then (st, .refused .Disabled, false)
  else if engineExit then (st, .refused .Disabled, false)
  else
    let st1 := { st with numSavesPending := st.numSavesPending + 1 }
    match st1.currentData with
    | none => (st1, .queued, true)
    | some cl =>
      let w := commitPhase uev st1.registeredActors cl
      let d := deleteEmpties w.2 w.1 st1.registeredActors
      ({ st1 with currentData := some d.1, registeredActors := d.2 },
        .queued, true)

/-- `UPersistenceManager::CommitSaveToSlot`: set `CurrentSlot`
unconditionally, then `CommitSave`. -/
def commitSaveToSlot (uev : Nat × Nat) (engineExit : Bool) (slot : Int)
    (st : MState) : MState × CommitOutcome × Bool :=
  commitSave uev engineExit { st with currentSlot := slot }

/-- Claim C10: `CommitSaveToSlot` switches the current slot
unconditionally before delegating to `CommitSave`, so after any call
the current slot equals the requested slot — also when the commit is
refused with `Disabled`; a refused commit does not restore the previous
slot. -/
theorem c10_slot_switch (uev : Nat × Nat) (e : Bool) (slot : Int)
    (st : MState) :
    (commitSaveToSlot uev e slot st).1.currentSlot = slot := by
  unfold commitSaveToSlot commitSave
  split_ifs <;> try rfl
  dsimp only
  split <;> rfl

/-- Claim C4: `CommitSave` delivers `Disabled` through the caller's
callback exactly when the session never-commit flag is set, a commit
lock is held, or engine shutdown is in progress; in every refusal the
manager state is unchanged and no pre-save notification fires (and no
job is queued — the outcome is a refusal, not `queued`); refusals only
ever carry `Disabled`, never `Busy`; and when nothing refuses, the
commit is queued regardless of how many saves are already pending, with
the pending counter incremented. -/
theorem c4_commit_refusal (uev : Nat × Nat) (e : Bool) (st : MState) :
    ((commitSave uev e st).2.1 =
        CommitOutcome.refused EPersistenceSaveResult.Disabled ↔
      (st.bNeverCommit = true ∨ st.bDisableCommit = true ∨ e = true)) ∧
    ((st.bNeverCommit = true ∨ st.bDisableCommit = true ∨ e = true) →
      (commitSave uev e st).1 = st ∧ (commitSave uev e st).2.2 = false) ∧
    (∀ r : EPersistenceSaveResult,
      (commitSave uev e st).2.1 = CommitOutcome.refused r →
        r = EPersistenceSaveResult.Disabled) ∧
    (st.bNeverCommit = false → st.bDisableCommit = false → e = false →
      (commitSave uev e st).2.1 = CommitOutcome.queued ∧
      (commitSave uev e st).1.numSavesPending = st.numSavesPending + 1) := by
  cases hbn : st.bNeverCommit <;> cases hbd : st.bDisableCommit <;>
    cases e <;> simp only [commitSave, hbn, hbd, if_true, if_false,
      Bool.false_eq_true, Bool.true_eq_false, ite_true, ite_false] <;>
    try (refine ⟨by simp, by simp, by simp, by simp⟩)
  cases hcd : st.currentData <;>
    simp [hcd]

/-- Concrete manager state for the C4 witness: the never-commit flag is
set. -/
def c4St : MState :=
  { bNeverCommit := true, bDisableCommit := false, commitLockObjects := [],
    numSavesPending := 0, currentSlot := -1, currentData := none,
    registeredActors := [] }

/-- Witness for C4: with the never-commit flag set, the state is
unchanged and the pre-save broadcast does not fire. -/
theorem c4_commit_refusal_witness :
    (commitSave (10, 0) false c4St).1 = c4St ∧
      (commitSave (10, 0) false c4St).2.2 = false :=
  (c4_commit_refusal (10, 0) false c4St).2.1 (Or.inl rfl)

/-- Claim C5: commit locking is ref-counted by caller identity — after
two distinct contexts disable, one re-enable leaves commits disabled;
commits re-enable only after both callers re-enable or after
`ClearAllCommitLocks`; repeated disables by the same context count
once; a null context changes nothing. -/
theorem c5_commit_lock_refcount (a b : Nat) (st : MState)
    (hab : a ≠ b) (h0 : st.commitLockObjects = []) :
    (setDisableCommit false (some a)
        (setDisableCommit true (some b)
          (setDisableCommit true (some a) st))).bDisableCommit = true ∧
    (setDisableCommit false (some b)
        (setDisableCommit false (some a)
          (setDisableCommit true (some b)
            (setDisableCommit true (some a) st)))).bDisableCommit = false ∧
    setDisableCommit true (some a) (setDisableCommit true (some a) st) =
      setDisableCommit true (some a) st ∧
    (clearAllCommitLocks
        (setDisableCommit true (some b)
          (setDisableCommit true (some a) st))).bDisableCommit = false ∧
    (clearAllCommitLocks
        (setDisableCommit true (some b)
          (setDisableCommit true (some a) st))).commitLockObjects = [] ∧
    (∀ d : Bool, setDisableCommit d none st = st) := by
  refine ⟨?_, ?_, ?_, ?_, ?_, fun d => rfl⟩ <;>
    simp [setDisableCommit, addUnique, clearAllCommitLocks, h0, hab,
      Ne.symm hab]

/-- Concrete manager state for the C5 witness: no locks held. -/
def c5St : MState :=
  { bNeverCommit := false, bDisableCommit := false, commitLockObjects := [],
    numSavesPending := 0, currentSlot := 0, currentData := none,
    registeredActors := [] }

/-- Witness for C5 at two concrete context objects. -/
theorem c5_commit_lock_refcount_witness :
    (setDisableCommit false (some 1)
        (setDisableCommit true (some 2)
          (setDisableCommit true (some 1) c5St))).bDisableCommit = true :=
  (c5_commit_lock_refcount 1 2 c5St (by decide) rfl).1

theorem lookupC_cons (k : Nat) (p : Nat × CState) (t : List (Nat × CState)) :
    lookupC k (p :: t) = if p.1 == k then some p.2 else lookupC k t := by
  unfold lookupC
  by_cases hp : (p.1 == k) = true
  · rw [List.find?_cons_of_pos t
      (show (fun q : Nat × CState => q.1 == k) p = true from hp), if_pos hp]
    rfl
  · rw [List.find?_cons_of_neg t
      (show ¬(fun q : Nat × CState => q.1 == k) p = true from hp), if_neg hp]

theorem lookupC_eq_none (k : Nat) (cl : List (Nat × CState))
    (h : k ∉ cl.map Prod.fst) : lookupC k cl = none := by
  unfold lookupC
  rw [List.find?_eq_none.mpr]
  · rfl
  · intro p hp hpk
    refine h ?_
    have hp1 : p.1 = k := by simpa using hpk
    rw [← hp1]
    exact List.mem_map_of_mem Prod.fst hp

theorem lookupC_updateC_self (k : Nat) (c : CState)
    (cl : List (Nat × CState)) :
    lookupC k (updateC k c cl) = some c := by
  unfold updateC lookupC
  by_cases h : (cl.find? (fun p => p.1 == k)).isSome
  · rw [if_pos h]
    obtain ⟨q, hq⟩ := Option.isSome_iff_exists.mp h
    have hqk := List.find?_some hq
    have hqk2 : (q.1 == k) = true := hqk
    rw [List.find?_map]
    have hcomp : ((fun p : Nat × CState => p.1 == k) ∘
        (fun p : Nat × CState => if p.1 == k then (k, c) else p)) =
        (fun p : Nat × CState => p.1 == k) := by
      funext p
      by_cases hp1 : p.1 = k
      · simp [hp1]
      · simp [hp1]
    rw [hcomp, hq, Option.map_some', Option.map_some', if_pos hqk2]
  · rw [if_neg h]
    rw [Option.not_isSome_iff_eq_none] at h
    rw [List.find?_append, h]
    simp

theorem lookupC_updateC_other (k k2 : Nat) (c : CState)
    (cl : List (Nat × CState)) (hkk : k ≠ k2) :
    lookupC k (updateC k2 c cl) = lookupC k cl := by
  unfold updateC lookupC
  by_cases h : (cl.find? (fun p => p.1 == k2)).isSome
  · rw [if_pos h, List.find?_map]
    have hcomp : ((fun p : Nat × CState => p.1 == k) ∘
        (fun p : Nat × CState => if p.1 == k2 then (k2, c) else p)) =
        (fun p : Nat × CState => p.1 == k) := by
      funext p
      by_cases hp1 : p.1 = k2
      · simp [hp1, Ne.symm hkk]
      · simp [hp1]
    rw [hcomp]
    cases hq : cl.find? (fun p => p.1 == k) with
    | none => rfl
    | some q =>
      have hqk := List.find?_some hq
      have hq1 : q.1 = k := by simpa using hqk
      have hq2 : (q.1 == k2) = false := by simp [hq1, hkk]
      simp only [Option.map_some']
      rw [hq2]
      rfl
  · rw [if_neg h]
    rw [List.find?_append]
    have h2 : [(k2, c)].find? (fun p => p.1 == k) = none := by
      simp [Ne.symm hkk]
    rw [h2, Option.or_none]

theorem deleteLast_mem (key : Nat) (cl : List (Nat × CState)) :
    (deleteLast key cl).2 = true ↔ key ∈ cl.map Prod.fst := by
  induction cl with
  | nil => simp [deleteLast]
  | cons p t ih =>
    unfold deleteLast
    dsimp only
    by_cases hr : (deleteLast key t).2 = true
    · rw [if_pos hr]
      simp only [List.map_cons, List.mem_cons]
      exact iff_of_true trivial (Or.inr (ih.mp hr))
    · rw [if_neg hr]
      by_cases hp : (p.1 == key) = true
      · rw [if_pos hp]
        simp only [List.map_cons, List.mem_cons]
        have hp1 : p.1 = key := by simpa using hp
        exact iff_of_true trivial (Or.inl hp1.symm)
      · rw [if_neg hp]
        refine iff_of_false (by simp) ?_
        simp only [List.map_cons, List.mem_cons]
        rintro (h | h)
        · exact hp (by simp [h])
        · exact hr (ih.mpr h)

theorem deleteLast_sublist (key : Nat) (cl : List (Nat × CState)) :
    ((deleteLast key cl).1).Sublist cl := by
  induction cl with
  | nil => exact List.Sublist.refl _
  | cons p t ih =>
    unfold deleteLast
    dsimp only
    by_cases hr : (deleteLast key t).2 = true
    · rw [if_pos hr]
      exact List.Sublist.cons₂ p ih
    · rw [if_neg hr]
      by_cases hp : (p.1 == key) = true
      · rw [if_pos hp]
        exact List.Sublist.cons p (List.Sublist.refl t)
      · rw [if_neg hp]

theorem lookupC_deleteLast_other (k key : Nat) (hk : k ≠ key)
    (cl : List (Nat × CState)) :
    lookupC k (deleteLast key cl).1 = lookupC k cl := by
  induction cl with
  | nil => rfl
  | cons p t ih =>
    unfold deleteLast
    dsimp only
    by_cases hr : (deleteLast key t).2 = true
    · rw [if_pos hr]
      dsimp only
      rw [lookupC_cons, lookupC_cons, ih]
    · rw [if_neg hr]
      by_cases hp : (p.1 == key) = true
      · rw [if_pos hp]
        dsimp only
        rw [lookupC_cons]
        have hpk : (p.1 == k) = false := by
          have hp1 : p.1 = key := by simpa using hp
          simp [hp1, Ne.symm hk]
        rw [hpk]
        simp
      · rw [if_neg hp]

theorem lookupC_deleteLast_self (key : Nat) (cl : List (Nat × CState))
    (hnd : (cl.map Prod.fst).Nodup) :
    lookupC key (deleteLast key cl).1 = none := by
  induction cl with
  | nil => rfl
  | cons p t ih =>
    have hnd2 := hnd
    rw [List.map_cons, List.nodup_cons] at hnd2
    unfold deleteLast
    dsimp only
    by_cases hr : (deleteLast key t).2 = true
    · rw [if_pos hr]
      dsimp only
      rw [lookupC_cons]
      have hkey : key ∈ t.map Prod.fst := (deleteLast_mem key t).mp hr
      have hpk : (p.1 == key) = false := by
        by_cases h : p.1 = key
        · exact absurd (show p.1 ∈ t.map Prod.fst by rw [h]; exact hkey)
            hnd2.1
        · simp [h]
      rw [hpk]
      simpa using ih hnd2.2

    · rw [if_neg hr]
      have hknt : key ∉ t.map Prod.fst :=
        fun h => hr ((deleteLast_mem key t).mpr h)
      by_cases hp : (p.1 == key) = true
      · rw [if_pos hp]
        dsimp only
        exact lookupC_eq_none key t hknt
      · rw [if_neg hp]
        dsimp only
        rw [lookupC_cons]
        have hpk : (p.1 == key) = false := by simpa using hp
        rw [hpk]
        simpa using lookupC_eq_none key t hknt

theorem updateC_keys_nodup (k : Nat) (c : CState)
    (cl : List (Nat × CState)) (h : (cl.map Prod.fst).Nodup) :
    ((updateC k c cl).map Prod.fst).Nodup := by
  unfold updateC
  by_cases hf : (cl.find? (fun p => p.1 == k)).isSome
  · rw [if_pos hf]
    have hkeys :
        (cl.map (fun p => if p.1 == k then (k, c) else p)).map Prod.fst =
          cl.map Prod.fst := by
      rw [List.map_map]
      apply List.map_congr_left
      intro p _
      by_cases hp1 : p.1 = k
      · simp [hp1]
      · simp [hp1]
    rw [hkeys]
    exact h
  · rw [if_neg hf]
    rw [List.map_append]
    have hk : k ∉ cl.map Prod.fst := by
      intro hmem
      apply hf
      obtain ⟨p, hp, hpk⟩ := List.mem_map.mp hmem
      rw [Option.isSome_iff_exists]
      have hne : cl.find? (fun p => p.1 == k) ≠ none := by
        rw [Ne, List.find?_eq_none]
        push_neg
        exact ⟨p, hp, by simp [hpk]⟩
      cases hfind : cl.find? (fun p => p.1 == k) with
      | none => exact absurd hfind hne
      | some q => exact ⟨q, rfl⟩
    simp [List.nodup_append, h, hk]

theorem commitPhase_keys_nodup (uev : Nat × Nat) :
    ∀ (reg : List (Nat × List (Option CComp))) (cl : List (Nat × CState)),
      (cl.map Prod.fst).Nodup →
      (((commitPhase uev reg cl).1).map Prod.fst).Nodup := by
  intro reg
  induction reg with
  | nil => intro cl h; exact h
  | cons e t ih =>
    intro cl h
    obtain ⟨name, comps⟩ := e
    unfold commitPhase
    by_cases hc : writeCond comps (lookupC name cl) = true
    · rw [if_pos hc]
      exact ih _ (updateC_keys_nodup name _ cl h)
    · rw [if_neg hc]
      exact ih cl h

theorem commitPhase_not_mem (uev : Nat × Nat) (k : Nat) :
    ∀ (reg : List (Nat × List (Option CComp))) (cl : List (Nat × CState)),
      k ∉ reg.map Prod.fst →
      lookupC k (commitPhase uev reg cl).1 = lookupC k cl ∧
        k ∉ (commitPhase uev reg cl).2 := by
  intro reg
  induction reg with
  | nil => intro cl _; exact ⟨rfl, by simp [commitPhase]⟩
  | cons e t ih =>
    intro cl hk
    obtain ⟨name, comps⟩ := e
    have hkt : k ∉ t.map Prod.fst := by
      intro h
      exact hk (by simp [h])
    have hkname : k ≠ name := by
      intro h
      exact hk (by simp [h])
    unfold commitPhase
    by_cases hc : writeCond comps (lookupC name cl) = true
    · rw [if_pos hc]
      have hA := ih (updateC name (cWriteData uev comps) cl) hkt
      refine ⟨?_, hA.2⟩
      rw [hA.1, lookupC_updateC_other k name _ cl hkname]
    · rw [if_neg hc]
      dsimp only
      have hA := ih cl hkt
      refine ⟨hA.1, ?_⟩
      intro hmem
      rcases List.mem_cons.mp hmem with h | h
      · exact hkname h
      · exact hA.2 h

theorem commitPhase_mem_spec (uev : Nat × Nat) (name : Nat)
    (comps : List (Option CComp)) :
    ∀ (reg : List (Nat × List (Option CComp))) (cl : List (Nat × CState)),
      (name, comps) ∈ reg → (reg.map Prod.fst).Nodup →
      (writeCond comps (lookupC name cl) = true →
        lookupC name (commitPhase uev reg cl).1 =
          some (cWriteData uev comps) ∧
        name ∉ (commitPhase uev reg cl).2) ∧
      (writeCond comps (lookupC name cl) = false →
        lookupC name (commitPhase uev reg cl).1 = lookupC name cl ∧
        name ∈ (commitPhase uev reg cl).2) := by
  intro reg
  induction reg with
  | nil => intro cl hmem _; exact absurd hmem (List.not_mem_nil _)
  | cons e t ih =>
    intro cl hmem hnd
    obtain ⟨n0, c0⟩ := e
    have hnd2 := hnd
    rw [List.map_cons, List.nodup_cons] at hnd2
    rcases List.mem_cons.mp hmem with hhead | htail
    · have h1 : n0 = name := (Prod.ext_iff.mp hhead).1.symm
      have h2 : c0 = comps := (Prod.ext_iff.mp hhead).2.symm
      subst h1
      subst h2
      unfold commitPhase
      constructor
      · intro hcond
        rw [if_pos hcond]
        have hA := commitPhase_not_mem uev n0 t
          (updateC n0 (cWriteData uev c0) cl) hnd2.1
        refine ⟨?_, hA.2⟩
        rw [hA.1, lookupC_updateC_self]
      · intro hcond
        rw [if_neg (by rw [hcond]; simp)]
        dsimp only
        have hA := commitPhase_not_mem uev n0 t cl hnd2.1
        exact ⟨hA.1, List.mem_cons_self _ _⟩
    · have hname_t : name ∈ t.map Prod.fst :=
        List.mem_map_of_mem Prod.fst htail
      have hnn : name ≠ n0 := by
        intro h
        refine hnd2.1 ?_
        rw [← h]
        exact hname_t
      unfold commitPhase
      by_cases hc0 : writeCond c0 (lookupC n0 cl) = true
      · rw [if_pos hc0]
        have heq : lookupC name (updateC n0 (cWriteData uev c0) cl) =
            lookupC name cl := lookupC_updateC_other name n0 _ cl hnn
        have hB := ih (updateC n0 (cWriteData uev c0) cl) htail hnd2.2
        rw [heq] at hB
        exact hB
      · rw [if_neg hc0]
        dsimp only
        have hB := ih cl htail hnd2.2
        constructor
        · intro hcond
          obtain ⟨ha, hb⟩ := hB.1 hcond
          refine ⟨ha, ?_⟩
          intro hmem2
          rcases List.mem_cons.mp hmem2 with h | h
          · exact hnn h
          · exact hb h
        · intro hcond
          obtain ⟨ha, hb⟩ := hB.2 hcond
          exact ⟨ha, List.mem_cons_of_mem _ hb⟩

theorem deleteEmpties_not_mem (k : Nat) :
    ∀ (names : List Nat) (cl : List (Nat × CState))
      (reg : List (Nat × List (Option CComp))),
      k ∉ names →
      lookupC k (deleteEmpties names cl reg).1 = lookupC k cl := by
  intro names
  induction names with
  | nil => intro cl reg _; rfl
  | cons n t ih =>
    intro cl reg hk
    have hkt : k ∉ t := fun h => hk (List.mem_cons_of_mem n h)
    have hkn : k ≠ n := fun h => hk (by rw [h]; exact List.mem_cons_self n t)
    unfold deleteEmpties
    rw [ih _ _ hkt]
    unfold mDeleteContainer
    dsimp only
    by_cases hr : (deleteLast n cl).2 = true
    · rw [if_pos hr]
      exact lookupC_deleteLast_other k n hkn cl
    · rw [if_neg hr]

theorem deleteEmpties_mem (k : Nat) :
    ∀ (names : List Nat) (cl : List (Nat × CState))
      (reg : List (Nat × List (Option CComp))),
      (cl.map Prod.fst).Nodup → k ∈ names →
      lookupC k (deleteEmpties names cl reg).1 = none := by
  intro names
  induction names with
  | nil => intro cl reg _ h; exact absurd h (List.not_mem_nil k)
  | cons n t ih =>
    intro cl reg hnd hk
    unfold deleteEmpties
    have hnd1 : (((mDeleteContainer n cl reg).1).map Prod.fst).Nodup := by
      unfold mDeleteContainer
      dsimp only
      by_cases hr : (deleteLast n cl).2 = true
      · rw [if_pos hr]
        exact List.Nodup.sublist
          (List.Sublist.map Prod.fst (deleteLast_sublist n cl)) hnd
      · rw [if_neg hr]
        exact hnd
    by_cases hkt : k ∈ t
    · exact ih _ _ hnd1 hkt
    · have hkn : k = n := by
        rcases List.mem_cons.mp hk with h | h
        · exact h
        · exact absurd h hkt
      subst hkn
      rw [deleteEmpties_not_mem k t _ _ hkt]
      unfold mDeleteContainer
      dsimp only
      by_cases hr : (deleteLast k cl).2 = true
      · rw [if_pos hr]
        exact lookupC_deleteLast_self k cl hnd
      · rw [if_neg hr]
        exact lookupC_eq_none k cl
          (fun h => hr ((deleteLast_mem k cl).mpr h))

/-- Claim C6 (amended): on a commit with a current world document, a
tracked container whose registered weak-pointer array is empty and
whose container has no destroyed entries is removed from the document's
container list; a tracked container whose registered array is non-empty
(live or stale entries) or whose destroyed set is non-empty is
rewritten via `WriteData` before the document is serialized. -/
theorem c6_commit_prunes (uev : Nat × Nat) (st : MState)
    (cl : List (Nat × CState)) (name : Nat) (comps : List (Option CComp))
    (hnc : st.bNeverCommit = false) (hdc : st.bDisableCommit = false)
    (hcd : st.currentData = some cl)
    (hreg : (st.registeredActors.map Prod.fst).Nodup)
    (hcl : (cl.map Prod.fst).Nodup)
    (hmem : (name, comps) ∈ st.registeredActors) :
    ∃ cl2, (commitSave uev false st).1.currentData = some cl2 ∧
      (writeCond comps (lookupC name cl) = true →
        lookupC name cl2 = some (cWriteData uev comps)) ∧
      (writeCond comps (lookupC name cl) = false →
        lookupC name cl2 = none) := by
  have hspec := commitPhase_mem_spec uev name comps st.registeredActors cl
    hmem hreg
  unfold commitSave
  rw [if_neg (by rw [hnc]; simp), if_neg (by rw [hdc]; simp),
    if_neg (by simp)]
  dsimp only
  rw [hcd]
  dsimp only
  refine ⟨_, rfl, ?_, ?_⟩
  · intro hcond
    obtain ⟨ha, hb⟩ := hspec.1 hcond
    rw [deleteEmpties_not_mem name _ _ _ hb, ha]
  · intro hcond
    obtain ⟨ha, hb⟩ := hspec.2 hcond
    exact deleteEmpties_mem name _ _ _
      (commitPhase_keys_nodup uev st.registeredActors cl hcl) hb

/-- Concrete manager state refuting the original C6 wording: one
tracked container whose registered array holds a single stale weak
pointer, and whose container has no destroyed entries. -/
def c6St : MState :=
  { bNeverCommit := false, bDisableCommit := false, commitLockObjects := [],
    numSavesPending := 0, currentSlot := 0,
    currentData := some [(0, ⟨[1, 2, 3], [], []⟩)],
    registeredActors := [(0, [none])] }

/-- The original C6 wording fails when a stale weak pointer lingers in
the registered array: the container has zero live registered components
and no destroyed entries, yet the commit does not remove it — it is
rewritten as an empty shell (empty index) because the raw array count
is used. -/
theorem c6_claim_counterexample :
    (liveOf [(none : Option CComp)]).length = 0 ∧
    hasDestroyedOpt
      (lookupC 0 [(0, (⟨[1, 2, 3], [], []⟩ : CState))]) = false ∧
    (commitSave (10, 0) false c6St).1.currentData =
      some [(0, cWriteData (10, 0) [none])] ∧
    (cWriteData (10, 0) [none]).info = [] := by
  refine ⟨rfl, rfl, ?_, rfl⟩
  rfl

/-- Concrete manager state for the C6 witness: one tracked container
with one live component. -/
def c6WSt : MState :=
  { bNeverCommit := false, bDisableCommit := false, commitLockObjects := [],
    numSavesPending := 0, currentSlot := 0,
    currentData := some [(1, ⟨[5], [], []⟩)],
    registeredActors := [(1, [some ⟨⟨1, 2, 3, 4⟩, [7], false, []⟩])] }

/-- Witness for C6 at a concrete manager state. -/
theorem c6_commit_prunes_witness :
    ∃ cl2, (commitSave (10, 0) false c6WSt).1.currentData = some cl2 ∧
      (writeCond [some ⟨⟨1, 2, 3, 4⟩, [7], false, []⟩]
          (lookupC 1 [(1, ⟨[5], [], []⟩)]) = true →
        lookupC 1 cl2 =
          some (cWriteData (10, 0) [some ⟨⟨1, 2, 3, 4⟩, [7], false, []⟩])) ∧
      (writeCond [some ⟨⟨1, 2, 3, 4⟩, [7], false, []⟩]
          (lookupC 1 [(1, ⟨[5], [], []⟩)]) = false →
        lookupC 1 cl2 = none) :=
  c6_commit_prunes (10, 0) c6WSt [(1, ⟨[5], [], []⟩)] 1
    [some ⟨⟨1, 2, 3, 4⟩, [7], false, []⟩] rfl rfl rfl (by decide) (by decide)
    (by decide)

end GunfireSpec
